import Mathlib

/-!
Virtual machine and debugger (`virtualmachine.c`).

A shallow embedding of the register machine of `virtualmachine.c`: the
execution engine `step`, the loader `read_vmlfile` / `reset_machine`, the
token resolvers `get_reg_arg` / `get_addr_arg`, and the main loop of the
debugger.

Conventions of the embedding.

* A C `int` is an `Int`; an addition, subtraction or multiplication that
  can leave the 32-bit range is reduced with `wrap32` (two's complement
  wraparound).
* The arrays `registers` and `memory` are lists of `Int`; a machine is
  well formed when they have `REGS` and `MEMSIZE` elements.
* A C operation without defined behaviour (an array access outside the
  array, a division by zero or with a quotient that does not fit an `int`,
  an `atoi` whose value does not fit an `int`) makes the embedded function return `none`; `some r` is a run of the C
  function that returns normally with result `r`.
* A C string is the list of its characters before the terminating NUL.
* What the program prints on `stdout` is a list of integers (one per
  `printf("%d\n", ...)`), what it prints on `stderr` a list of `Diag`.
-/

namespace VM

/-! ## Architecture definitions -/

def MEMSIZE : Nat := 500
def REGS : Nat := 32
def IP : Int := 0
def RP : Int := 29
def FP : Int := 30
def SP : Int := 31

/-- Reduction of an integer into the range of a 32-bit signed `int`. -/
def wrap32 (x : Int) : Int := (x + 2147483648) % 4294967296 - 2147483648

/-- Value of `a[i]` for a C array held in the list `a`; `none` when `i` is
outside the array. -/
def load (a : List Int) (i : Int) : Option Int :=
  if 0 ≤ i then a[i.toNat]? else none

/-- Effect of `a[i] = v` on a C array held in the list `a`; `none` when `i`
is outside the array. -/
def store (a : List Int) (i v : Int) : Option (List Int) :=
  if 0 ≤ i ∧ i.toNat < a.length then some (a.set i.toNat v) else none

/-- Messages written to `stderr`. -/
inductive Diag where
  | invalidOpcode (tag : Int)
  | fileNotFound
  | badWordCount (words : Int)
  | shortFile (words : Int) (found : Nat)
  | badData (index : Nat)
  | addressRequired
  | badAddress (arg : List Char)
  | addressOutOfRange (addr : Int)
  | prompt (ip : Int)
  | hitBreakpoint (addr : Int)
  | endOfInput
  | programExited
  | helpText
  | listNotImplemented
  | printNeedsArgument
  | badRegisterName (arg : List Char)
  | registerValue (arg : List Char) (value : Int)
  | xNeedsArgument
  | memoryValue (addr : Int) (value : Int)
  | frameNotImplemented
  | resetFailed
  | breakpointSet (addr : Int)
  | noBreakpoint
  | breakpointDeleted (addr : Int)
deriving DecidableEq, Repr

/-- What one call of `step` leaves behind: the returned code (0 success,
-1 halt, 1 error), the two arrays, and what was printed. -/
structure StepResult where
  code : Int
  registers : List Int
  memory : List Int
  out : List Int
  err : List Diag
deriving DecidableEq, Repr

/-- The end of `step` after the `switch`: `registers[IP] = ip; return 0;`. -/
def advance (registers memory : List Int) (ip : Int) (out : List Int) :
    Option StepResult := do
  let registers ← store registers IP ip
  pure ⟨0, registers, memory, out, []⟩

/-- Executes one instruction (`step`). -/
def step (registers memory : List Int) : Option StepResult := do
  let ip ← load registers IP
  let op ← load memory ip
  let ip := ip + 1
  if op = 1 then        -- MOVI imm rd
    let imm ← load memory ip
    let ip := ip + 1
    let rd ← load memory ip
    let ip := ip + 1
    let registers ← store registers rd imm
    advance registers memory ip []
  else if op = 2 then   -- MOV rs rd
    let rs ← load memory ip
    let ip := ip + 1
    let rd ← load memory ip
    let ip := ip + 1
    let v ← load registers rs
    let registers ← store registers rd v
    advance registers memory ip []
  else if op = 3 then   -- ADD rs rd
    let rs ← load memory ip
    let ip := ip + 1
    let rd ← load memory ip
    let ip := ip + 1
    let a ← load registers rd
    let b ← load registers rs
    let registers ← store registers rd (wrap32 (a + b))
    advance registers memory ip []
  else if op = 4 then   -- SUB rs rd
    let rs ← load memory ip
    let ip := ip + 1
    let rd ← load memory ip
    let ip := ip + 1
    let a ← load registers rd
    let b ← load registers rs
    let registers ← store registers rd (wrap32 (a - b))
    advance registers memory ip []
  else if op = 5 then   -- MUL rs rd
    let rs ← load memory ip
    let ip := ip + 1
    let rd ← load memory ip
    let ip := ip + 1
    let a ← load registers rd
    let b ← load registers rs
    let registers ← store registers rd (wrap32 (a * b))
    advance registers memory ip []
  else if op = 6 then   -- IDIV rs rd
    let rs ← load memory ip
    let ip := ip + 1
    let rd ← load memory ip
    let ip := ip + 1
    let a ← load registers rd
    let b ← load registers rs
    -- `registers[rd] /= registers[rs]` has no defined behaviour for a zero
    -- divisor, nor when the quotient does not fit an `int` (INT_MIN / -1)
    if b = 0 ∨ Int.tdiv a b < -2147483648 ∨ 2147483647 < Int.tdiv a b then none
    else
      let registers ← store registers rd (Int.tdiv a b)
      advance registers memory ip []
  else if op = 7 then   -- JMP ra
    let ra ← load memory ip
    let ip ← load registers ra
    advance registers memory ip []
  else if op = 8 then   -- JNZ rs ra
    let rs ← load memory ip
    let ip := ip + 1
    let ra ← load memory ip
    let ip := ip + 1
    let t ← load registers rs
    if t ≠ 0 then
      let ip ← load registers ra
      advance registers memory ip []
    else
      advance registers memory ip []
  else if op = 9 then   -- OUT rs
    let rs ← load memory ip
    let ip := ip + 1
    let v ← load registers rs
    advance registers memory ip [v]
  else if op = 10 then  -- HALT
    pure ⟨-1, registers, memory, [], []⟩
  else if op = 11 then  -- LD ra rd
    let ra ← load memory ip
    let ip := ip + 1
    let rd ← load memory ip
    let ip := ip + 1
    let addr ← load registers ra
    let v ← load memory addr
    let registers ← store registers rd v
    advance registers memory ip []
  else if op = 12 then  -- ST ra rs
    let ra ← load memory ip
    let ip := ip + 1
    let rs ← load memory ip
    let ip := ip + 1
    let addr ← load registers ra
    let v ← load registers rs
    let memory ← store memory addr v
    advance registers memory ip []
  else if op = 13 then  -- JAL ra
    let ra ← load memory ip
    let ip := ip + 1
    let registers ← store registers RP ip
    let ip ← load registers ra
    advance registers memory ip []
  else if op = 14 then  -- RET
    let ip ← load registers RP
    advance registers memory ip []
  else if op = 15 then  -- PUSH rs
    let rs ← load memory ip
    let ip := ip + 1
    -- `memory[registers[SP]++] = registers[rs]`: with rs = SP the read of
    -- registers[SP] on the right is unsequenced with the increment
    if rs = SP then none
    else
      let sp ← load registers SP
      let v ← load registers rs
      let registers ← store registers SP (wrap32 (sp + 1))
      let memory ← store memory sp v
      advance registers memory ip []
  else if op = 16 then  -- POP rd
    let rd ← load memory ip
    let ip := ip + 1
    -- `registers[rd] = memory[--registers[SP]]`: with rd = SP the two
    -- writes of registers[SP] are unsequenced
    if rd = SP then none
    else
      let sp ← load registers SP
      let sp := wrap32 (sp - 1)
      let registers ← store registers SP sp
      let v ← load memory sp
      let registers ← store registers rd v
      advance registers memory ip []
  else if op = 17 then  -- LDLO imm rd
    let imm ← load memory ip
    let ip := ip + 1
    let rd ← load memory ip
    let ip := ip + 1
    let fp ← load registers FP
    let v ← load memory (wrap32 (fp + imm))
    let registers ← store registers rd v
    advance registers memory ip []
  else if op = 18 then  -- STLO imm rs
    let imm ← load memory ip
    let ip := ip + 1
    let rs ← load memory ip
    let ip := ip + 1
    let fp ← load registers FP
    let v ← load registers rs
    let memory ← store memory (wrap32 (fp + imm)) v
    advance registers memory ip []
  else
    pure ⟨1, registers, memory, [], [Diag.invalidOpcode op]⟩

/-- The two arrays have the sizes `main` declares them with. -/
def WellFormed (registers memory : List Int) : Prop :=
  registers.length = REGS ∧ memory.length = MEMSIZE

instance (registers memory : List Int) : Decidable (WellFormed registers memory) := by
  unfold WellFormed; infer_instance

/-- A register file holding `ip` in IP, `r1` in register 1, `sp` in SP and 0 elsewhere. -/
def regsWith (ip r1 sp : Int) : List Int :=
  [ip, r1] ++ List.replicate 29 0 ++ [sp]

/-- A memory holding `code` at address 0 and 0 in every later cell. -/
def memWith (code : List Int) : List Int :=
  code ++ List.replicate (MEMSIZE - code.length) 0


/-! ## C library functions on strings -/

/-- Code of the lower-case form of a character (`tolower`, C locale). -/
def tolower (c : Char) : Nat :=
  if 65 ≤ c.toNat ∧ c.toNat ≤ 90 then c.toNat + 32 else c.toNat

/-- Decimal digit test (`isdigit`). -/
def isdigit (c : Char) : Bool := decide (48 ≤ c.toNat ∧ c.toNat ≤ 57)

/-- White space test (`isspace`, C locale). -/
def isspace (c : Char) : Bool := decide (c.toNat = 32 ∨ (9 ≤ c.toNat ∧ c.toNat ≤ 13))

/-- Whether `strncasecmp(a, b, n)` is 0: the first `n` characters agree up
to case, the comparison stopping at a common terminating NUL. -/
def strncaseeq : Nat → List Char → List Char → Bool
  | 0, _, _ => true
  | _ + 1, [], [] => true
  | _ + 1, [], _ :: _ => false
  | _ + 1, _ :: _, [] => false
  | n + 1, a :: as, b :: bs => tolower a == tolower b && strncaseeq n as bs

/-- Whether `strcasecmp(a, b)` is 0. -/
def strcaseeq : List Char → List Char → Bool
  | [], [] => true
  | [], _ :: _ => false
  | _ :: _, [] => false
  | a :: as, b :: bs => tolower a == tolower b && strcaseeq as bs

/-- The number read from the leading decimal digits of `s`, continuing from `acc`. -/
def digitsValue : Int → List Char → Int
  | acc, [] => acc
  | acc, c :: cs => if isdigit c then digitsValue (acc * 10 + ((c.toNat : Int) - 48)) cs else acc

/-- Drops leading white space. -/
def skipSpace : List Char → List Char
  | [] => []
  | c :: cs => if isspace c then skipSpace cs else c :: cs

/-- The C library `atoi`: optional white space, optional sign, decimal digits;
0 when there is no digit; `none` when the value does not fit an `int`. -/
def atoi (s : List Char) : Option Int :=
  let v : Int :=
    match skipSpace s with
    | [] => 0
    | c :: cs =>
      if c = '-' then - digitsValue 0 cs
      else if c = '+' then digitsValue 0 cs
      else digitsValue 0 (c :: cs)
  if -2147483648 ≤ v ∧ v ≤ 2147483647 then some v else none

/-! ## Loader -/

/-- A program file as `fscanf` sees it: the leading word count, the integers
that the successive `fscanf(" %d ")` calls convert, and whether what stops
them is a token that is not a number (`true`) or the end of the file (`false`). -/
structure VmlFile where
  words : Int
  data : List Int
  badToken : Bool
deriving DecidableEq, Repr

/-- The loop of `read_vmlfile`: `left` iterations remain, `i` is the loop index. -/
def read_words (f : VmlFile) : Nat → Nat → List Int → List Int →
    Option (Int × List Int × List Diag)
  | 0, _, _, memory => some (f.words, memory, [])
  | _ + 1, i, [], memory =>
    some (-1, memory, [if f.badToken then Diag.badData i else Diag.shortFile f.words i])
  | left + 1, i, v :: data, memory =>
    match store memory i v with
    | none => none
    | some memory => read_words f left (i + 1) data memory

/-- Loads a program file into memory (`read_vmlfile`); `none` for the file is
a file that cannot be opened. The result is the returned count (or -1), the
memory and the messages. -/
def read_vmlfile (file : Option VmlFile) (memory : List Int) :
    Option (Int × List Int × List Diag) :=
  match file with
  | none => some (-1, memory, [Diag.fileNotFound])
  | some f =>
    if f.words < 0 then some (-1, memory, [Diag.badWordCount f.words])
    else read_words f f.words.toNat 0 f.data memory

/-- Result of `reset_machine`: returned code, the two arrays, messages. -/
structure ResetResult where
  code : Int
  registers : List Int
  memory : List Int
  err : List Diag
deriving DecidableEq, Repr

/-- Loads the program and sets IP, FP and SP (`reset_machine`). -/
def reset_machine (registers memory : List Int) (file : Option VmlFile) :
    Option ResetResult := do
  let (code_size, memory, err) ← read_vmlfile file memory
  if code_size < 0 then
    pure ⟨1, registers, memory, err⟩
  else
    let registers ← store registers IP 0
    let registers ← store registers SP code_size
    let registers ← store registers FP code_size
    pure ⟨0, registers, memory, err⟩

/-! ## Register and address resolvers -/

/-- Register index named by a token, or -1 (`get_reg_arg`). -/
def get_reg_arg (arg : List Char) : Option Int :=
  if strcaseeq arg ['i', 'p'] then some IP
  else if strcaseeq arg ['r', 'p'] then some RP
  else if strcaseeq arg ['f', 'p'] then some FP
  else if strcaseeq arg ['s', 'p'] then some SP
  else
    match arg with
    | [] => some (-1)
    | c :: rest =>
      if c ≠ 'r' ∧ c ≠ 'R' then some (-1)
      else
        match atoi rest with
        | none => none
        | some regnum =>
          if regnum < 0 ∨ regnum ≥ REGS then some (-1) else some regnum

/-- The range check that ends `get_addr_arg`. -/
def checkAddr (addr : Int) : Int × List Diag :=
  if addr < 0 ∨ addr ≥ MEMSIZE then (-1, [Diag.addressOutOfRange addr]) else (addr, [])

/-- Memory address named by a token, or -1, with the messages printed
(`get_addr_arg`). -/
def get_addr_arg (arg : List Char) (regs : List Int) : Option (Int × List Diag) :=
  match arg with
  | [] => some (-1, [Diag.addressRequired])
  | c :: _ =>
    match get_reg_arg arg with
    | none => none
    | some regnum =>
      if regnum ≥ 0 then
        (load regs regnum).map checkAddr
      else if isdigit c then
        (atoi arg).map checkAddr
      else
        some (-1, [Diag.badAddress arg])

/-- Case-insensitive prefix test: `!strncasecmp(pre, str, strlen(pre))`. -/
def is_prefix (pre str : List Char) : Bool :=
  strncaseeq pre.length pre str

/-! ## Debugger session and main loop -/

/-- One line of the command channel as `sscanf(line, " %s %s ", cmd, arg)`
splits it: the command word and the argument word, each empty when the line
does not have it. -/
structure Line where
  cmd : List Char
  arg : List Char
deriving DecidableEq, Repr

/-- Result of `read_command`: the returned count (-1 at the end of the
input), the two buffers, the lines not yet read, and the prompts printed. -/
structure Command where
  args : Int
  cmd : List Char
  arg : List Char
  rest : List Line
  err : List Diag
deriving DecidableEq, Repr

/-- Prompts and reads lines until one holds a command word (`read_command`). -/
def read_command (ip : Int) : List Line → Command
  | [] => ⟨-1, [], [], [], [Diag.prompt ip]⟩
  | l :: rest =>
    if l.cmd = [] then
      let c := read_command ip rest
      { c with err := Diag.prompt ip :: c.err }
    else
      ⟨if l.arg = [] then 1 else 2, l.cmd, l.arg, rest, [Diag.prompt ip]⟩

/-- The variables of `main` that live across iterations of its loop, with
the unread command lines and what has been printed so far. -/
structure Session where
  debug : Bool
  paused : Bool
  breakpoint : Int
  registers : List Int
  memory : List Int
  input : List Line
  out : List Int
  err : List Diag
deriving DecidableEq, Repr

/-- How one iteration of the main loop ends: `main` returns `code`, or the
loop goes round again. -/
inductive Loop where
  | exit (code : Int) (s : Session)
  | next (s : Session)
deriving DecidableEq, Repr

/-- The breakpoint test at the head of the loop body. -/
def check_breakpoint (s : Session) : Option Session :=
  if s.debug && !s.paused then
    match load s.registers IP with
    | none => none
    | some ip =>
      if ip = s.breakpoint then
        some { s with paused := true, err := s.err ++ [Diag.hitBreakpoint s.breakpoint] }
      else some s
  else some s

/-- The call of `step` in the main loop and the `switch` on its result. -/
def run_step (s : Session) : Option Loop :=
  match step s.registers s.memory with
  | none => none
  | some r =>
    let s := { s with registers := r.registers, memory := r.memory,
                      out := s.out ++ r.out, err := s.err ++ r.err }
    if r.code = 0 then some (Loop.next s)
    else if r.code = 1 then
      if !s.debug then some (Loop.exit 1 s) else some (Loop.next { s with paused := true })
    else if r.code = -1 then
      some (Loop.exit 0 (if s.debug then { s with err := s.err ++ [Diag.programExited] } else s))
    else some (Loop.next s)

/-- The chain of commands that do not run the machine (from `continue` down). -/
def run_command (file : Option VmlFile) (s : Session) (cmd arg : List Char) (args : Int) :
    Option Loop :=
  if is_prefix cmd "continue".toList then some (Loop.next s)
  else if is_prefix cmd "help".toList then
    some (Loop.next { s with err := s.err ++ [Diag.helpText] })
  else if is_prefix cmd "quit".toList then some (Loop.exit 0 s)
  else if is_prefix cmd "list".toList then
    some (Loop.next { s with err := s.err ++ [Diag.listNotImplemented] })
  else if is_prefix cmd "print".toList then
    if args < 2 then some (Loop.next { s with err := s.err ++ [Diag.printNeedsArgument] })
    else
      match get_reg_arg arg with
      | none => none
      | some regnum =>
        if regnum < 0 then some (Loop.next { s with err := s.err ++ [Diag.badRegisterName arg] })
        else
          match load s.registers regnum with
          | none => none
          | some v => some (Loop.next { s with err := s.err ++ [Diag.registerValue arg v] })
  else if cmd = ['x'] then
    if args < 2 then some (Loop.next { s with err := s.err ++ [Diag.xNeedsArgument] })
    else
      match get_addr_arg arg s.registers with
      | none => none
      | some (addr, e) =>
        if addr ≥ 0 then
          match load s.memory addr with
          | none => none
          | some v => some (Loop.next { s with err := s.err ++ e ++ [Diag.memoryValue addr v] })
        else some (Loop.next { s with err := s.err ++ e })
  else if is_prefix cmd "frame".toList then
    some (Loop.next { s with err := s.err ++ [Diag.frameNotImplemented] })
  else if is_prefix cmd "restart".toList then
    match reset_machine s.registers s.memory file with
    | none => none
    | some r =>
      let s := { s with registers := r.registers, memory := r.memory, err := s.err ++ r.err }
      if r.code ≠ 0 then some (Loop.exit 1 { s with err := s.err ++ [Diag.resetFailed] })
      else some (Loop.next s)
  else if is_prefix cmd "break".toList then
    match load s.registers IP with
    | none => none
    | some ip =>
      match (if args ≥ 2 then get_addr_arg arg s.registers else some (ip, [])) with
      | none => none
      | some (addr, e) =>
        if addr ≥ 0 then
          some (Loop.next { s with breakpoint := addr, err := s.err ++ e ++ [Diag.breakpointSet addr] })
        else some (Loop.next { s with err := s.err ++ e })
  else if is_prefix cmd "delete".toList then
    if s.breakpoint < 0 then some (Loop.next { s with err := s.err ++ [Diag.noBreakpoint] })
    else
      some (Loop.next { s with breakpoint := -1,
                               err := s.err ++ [Diag.breakpointDeleted s.breakpoint] })
  else some (Loop.next s)

/-- One pass through the body of the `for(;;)` loop of `main`. -/
def iteration (file : Option VmlFile) (s : Session) : Option Loop :=
  match check_breakpoint s with
  | none => none
  | some s =>
    if s.debug && s.paused then
      match load s.registers IP with
      | none => none
      | some ip =>
        let c := read_command ip s.input
        let s := { s with input := c.rest, err := s.err ++ c.err }
        if c.args < 0 then
          -- end of input: debug = 0, and the machine runs
          run_step { s with debug := false, err := s.err ++ [Diag.endOfInput] }
        else if is_prefix c.cmd "continue".toList then
          run_step { s with paused := false }
        else if is_prefix c.cmd "step".toList then
          run_step s
        else
          run_command file s c.cmd c.arg c.args
    else
      run_step s

/-- The main loop run for at most `fuel` iterations. -/
def run (file : Option VmlFile) : Nat → Session → Option Loop
  | 0, s => some (Loop.next s)
  | fuel + 1, s =>
    match iteration file s with
    | none => none
    | some (Loop.exit code s) => some (Loop.exit code s)
    | some (Loop.next s) => run file fuel s

/-- The program from the loading of the file on (`main` after the parsing of
its arguments): `registers` and `memory` are the contents the two local
arrays happen to have, `debug` whether `-d` was given. -/
def main (debug : Bool) (file : Option VmlFile) (input : List Line)
    (registers memory : List Int) (fuel : Nat) : Option Loop :=
  match reset_machine registers memory file with
  | none => none
  | some r =>
    let s : Session := ⟨debug, debug, -1, r.registers, r.memory, input, [], r.err⟩
    if r.code ≠ 0 then some (Loop.exit 1 s)
    else run file fuel s

/-! ## Auxiliary definitions for the statements -/

/-- The call of `step` does not return the error code 1. -/
def NoFault (x : Option StepResult) : Prop := ∀ r, x = some r → r.code ≠ 1

/-- Offsets from the opcode word of the operand words that `step` uses as
register indices, for each opcode (from the case labels of `step`:
`MOVI imm rd`, `MOV rs rd`, ..., `STLO imm rs`). -/
def regOperandOffsets (op : Int) : List Int :=
  if op = 1 ∨ op = 17 ∨ op = 18 then [2]
  else if op = 2 ∨ op = 3 ∨ op = 4 ∨ op = 5 ∨ op = 6 ∨ op = 8 ∨ op = 11 ∨ op = 12 then [1, 2]
  else if op = 7 ∨ op = 9 ∨ op = 13 ∨ op = 15 ∨ op = 16 then [1]
  else []

/-- Two calls of `step`, the second on what the first leaves, as long as the
first returns success: the code of the last call made, the final SP and
register 2. -/
def twoSteps (registers memory : List Int) : Option (Int × Option Int × Option Int) :=
  match step registers memory with
  | none => none
  | some r1 =>
    if r1.code ≠ 0 then some (r1.code, load r1.registers SP, load r1.registers 2)
    else
      match step r1.registers r1.memory with
      | none => none
      | some r2 => some (r2.code, load r2.registers SP, load r2.registers 2)

/-- Number of operand words that follow the opcode word, for each opcode
(from the case labels of `step`). -/
def operandWords (op : Int) : Int :=
  if op = 10 ∨ op = 14 then 0
  else if op = 7 ∨ op = 9 ∨ op = 13 ∨ op = 15 ∨ op = 16 then 1
  else 2

/-- Whenever the call of `step` returns, it leaves `v` in IP. -/
def IPAfter (v : Int) (x : Option StepResult) : Prop :=
  ∀ r, x = some r → load r.registers IP = some v

/-- The ten words that the main loop matches by prefix, in the order of its
tests. -/
def commandWords : List (List Char) :=
  ["continue".toList, "step".toList, "help".toList, "quit".toList, "list".toList,
   "print".toList, "frame".toList, "restart".toList, "break".toList, "delete".toList]


/-! ## Array access lemmas -/

theorem load_eq_some_iff {a : List Int} {i x : Int} :
    load a i = some x ↔ 0 ≤ i ∧ a[i.toNat]? = some x := by
  unfold load
  split_ifs with h <;> simp [h]

theorem load_lt {a : List Int} {i x : Int} (h : load a i = some x) :
    0 ≤ i ∧ i < a.length := by
  obtain ⟨h0, h1⟩ := load_eq_some_iff.mp h
  have := (List.getElem?_eq_some.mp h1).1
  exact ⟨h0, by omega⟩

theorem load_eq_none_of_ge {a : List Int} {i : Int} (h : (a.length : Int) ≤ i) :
    load a i = none := by
  unfold load
  split_ifs with h0
  · exact List.getElem?_eq_none (by omega)
  · rfl

theorem load_eq_none_of_neg {a : List Int} {i : Int} (h : i < 0) : load a i = none := by
  unfold load
  rw [if_neg (by omega)]

theorem store_some {a : List Int} {i : Int} (v : Int) (h0 : 0 ≤ i) (h1 : i < a.length) :
    store a i v = some (a.set i.toNat v) := by
  unfold store
  rw [if_pos ⟨h0, by omega⟩]

theorem store_of_load {a : List Int} {i x : Int} (v : Int) (h : load a i = some x) :
    store a i v = some (a.set i.toNat v) :=
  store_some v (load_lt h).1 (load_lt h).2

theorem store_eq_none_of_ge {a : List Int} {i : Int} (v : Int) (h : (a.length : Int) ≤ i) :
    store a i v = none := by
  unfold store
  rw [if_neg (by omega)]

theorem store_eq_none_of_neg {a : List Int} {i : Int} (v : Int) (h : i < 0) :
    store a i v = none := by
  unfold store
  rw [if_neg (by omega)]

theorem load_set_same {a : List Int} {i : Int} (v : Int) (h0 : 0 ≤ i) (h1 : i < a.length) :
    load (a.set i.toNat v) i = some v := by
  unfold load
  have h2 : i.toNat < a.length := by omega
  rw [if_pos h0]
  simp [List.getElem?_set, h2]

theorem load_set_ne {a : List Int} {i j : Int} (v : Int) (h0 : 0 ≤ i) (hij : i ≠ j) :
    load (a.set i.toNat v) j = load a j := by
  unfold load
  split_ifs with hj
  · rw [List.getElem?_set_ne]
    omega
  · rfl

/-! ## The cases of `step` -/

theorem step_movi {registers memory : List Int} {ip : Int}
    (hip : load registers IP = some ip) (hop : load memory ip = some 1) :
    step registers memory = (do
      let ip := ip + 1
      let imm ← load memory ip
      let ip := ip + 1
      let rd ← load memory ip
      let ip := ip + 1
      let registers ← store registers rd imm
      advance registers memory ip []) := by
  unfold step
  simp only [hip, hop, Option.bind_eq_bind, Option.some_bind]
  simp only [Int.reduceEq, if_false, if_true]

theorem step_mov {registers memory : List Int} {ip : Int}
    (hip : load registers IP = some ip) (hop : load memory ip = some 2) :
    step registers memory = (do
      let ip := ip + 1
      let rs ← load memory ip
      let ip := ip + 1
      let rd ← load memory ip
      let ip := ip + 1
      let v ← load registers rs
      let registers ← store registers rd v
      advance registers memory ip []) := by
  unfold step
  simp only [hip, hop, Option.bind_eq_bind, Option.some_bind]
  simp only [Int.reduceEq, if_false, if_true]

theorem step_add {registers memory : List Int} {ip : Int}
    (hip : load registers IP = some ip) (hop : load memory ip = some 3) :
    step registers memory = (do
      let ip := ip + 1
      let rs ← load memory ip
      let ip := ip + 1
      let rd ← load memory ip
      let ip := ip + 1
      let a ← load registers rd
      let b ← load registers rs
      let registers ← store registers rd (wrap32 (a + b))
      advance registers memory ip []) := by
  unfold step
  simp only [hip, hop, Option.bind_eq_bind, Option.some_bind]
  simp only [Int.reduceEq, if_false, if_true]

theorem step_sub {registers memory : List Int} {ip : Int}
    (hip : load registers IP = some ip) (hop : load memory ip = some 4) :
    step registers memory = (do
      let ip := ip + 1
      let rs ← load memory ip
      let ip := ip + 1
      let rd ← load memory ip
      let ip := ip + 1
      let a ← load registers rd
      let b ← load registers rs
      let registers ← store registers rd (wrap32 (a - b))
      advance registers memory ip []) := by
  unfold step
  simp only [hip, hop, Option.bind_eq_bind, Option.some_bind]
  simp only [Int.reduceEq, if_false, if_true]

theorem step_mul {registers memory : List Int} {ip : Int}
    (hip : load registers IP = some ip) (hop : load memory ip = some 5) :
    step registers memory = (do
      let ip := ip + 1
      let rs ← load memory ip
      let ip := ip + 1
      let rd ← load memory ip
      let ip := ip + 1
      let a ← load registers rd
      let b ← load registers rs
      let registers ← store registers rd (wrap32 (a * b))
      advance registers memory ip []) := by
  unfold step
  simp only [hip, hop, Option.bind_eq_bind, Option.some_bind]
  simp only [Int.reduceEq, if_false, if_true]

theorem step_idiv {registers memory : List Int} {ip : Int}
    (hip : load registers IP = some ip) (hop : load memory ip = some 6) :
    step registers memory = (do
      let ip := ip + 1
      let rs ← load memory ip
      let ip := ip + 1
      let rd ← load memory ip
      let ip := ip + 1
      let a ← load registers rd
      let b ← load registers rs
      if b = 0 ∨ Int.tdiv a b < -2147483648 ∨ 2147483647 < Int.tdiv a b then none
      else
        let registers ← store registers rd (Int.tdiv a b)
        advance registers memory ip []) := by
  unfold step
  simp only [hip, hop, Option.bind_eq_bind, Option.some_bind]
  simp only [Int.reduceEq, if_false, if_true]

theorem step_jmp {registers memory : List Int} {ip : Int}
    (hip : load registers IP = some ip) (hop : load memory ip = some 7) :
    step registers memory = (do
      let ip := ip + 1
      let ra ← load memory ip
      let ip ← load registers ra
      advance registers memory ip []) := by
  unfold step
  simp only [hip, hop, Option.bind_eq_bind, Option.some_bind]
  simp only [Int.reduceEq, if_false, if_true]

theorem step_jnz {registers memory : List Int} {ip : Int}
    (hip : load registers IP = some ip) (hop : load memory ip = some 8) :
    step registers memory = (do
      let ip := ip + 1
      let rs ← load memory ip
      let ip := ip + 1
      let ra ← load memory ip
      let ip := ip + 1
      let t ← load registers rs
      if t ≠ 0 then
        let ip ← load registers ra
        advance registers memory ip []
      else
        advance registers memory ip []) := by
  unfold step
  simp only [hip, hop, Option.bind_eq_bind, Option.some_bind]
  simp only [Int.reduceEq, if_false, if_true]

theorem step_out {registers memory : List Int} {ip : Int}
    (hip : load registers IP = some ip) (hop : load memory ip = some 9) :
    step registers memory = (do
      let ip := ip + 1
      let rs ← load memory ip
      let ip := ip + 1
      let v ← load registers rs
      advance registers memory ip [v]) := by
  unfold step
  simp only [hip, hop, Option.bind_eq_bind, Option.some_bind]
  simp only [Int.reduceEq, if_false, if_true]

theorem step_halt {registers memory : List Int} {ip : Int}
    (hip : load registers IP = some ip) (hop : load memory ip = some 10) :
    step registers memory = (do
      pure ⟨-1, registers, memory, [], []⟩) := by
  unfold step
  simp only [hip, hop, Option.bind_eq_bind, Option.some_bind]
  simp only [Int.reduceEq, if_false, if_true]

theorem step_ld {registers memory : List Int} {ip : Int}
    (hip : load registers IP = some ip) (hop : load memory ip = some 11) :
    step registers memory = (do
      let ip := ip + 1
      let ra ← load memory ip
      let ip := ip + 1
      let rd ← load memory ip
      let ip := ip + 1
      let addr ← load registers ra
      let v ← load memory addr
      let registers ← store registers rd v
      advance registers memory ip []) := by
  unfold step
  simp only [hip, hop, Option.bind_eq_bind, Option.some_bind]
  simp only [Int.reduceEq, if_false, if_true]

theorem step_st {registers memory : List Int} {ip : Int}
    (hip : load registers IP = some ip) (hop : load memory ip = some 12) :
    step registers memory = (do
      let ip := ip + 1
      let ra ← load memory ip
      let ip := ip + 1
      let rs ← load memory ip
      let ip := ip + 1
      let addr ← load registers ra
      let v ← load registers rs
      let memory ← store memory addr v
      advance registers memory ip []) := by
  unfold step
  simp only [hip, hop, Option.bind_eq_bind, Option.some_bind]
  simp only [Int.reduceEq, if_false, if_true]

theorem step_jal {registers memory : List Int} {ip : Int}
    (hip : load registers IP = some ip) (hop : load memory ip = some 13) :
    step registers memory = (do
      let ip := ip + 1
      let ra ← load memory ip
      let ip := ip + 1
      let registers ← store registers RP ip
      let ip ← load registers ra
      advance registers memory ip []) := by
  unfold step
  simp only [hip, hop, Option.bind_eq_bind, Option.some_bind]
  simp only [Int.reduceEq, if_false, if_true]

theorem step_ret {registers memory : List Int} {ip : Int}
    (hip : load registers IP = some ip) (hop : load memory ip = some 14) :
    step registers memory = (do
      let ip ← load registers RP
      advance registers memory ip []) := by
  unfold step
  simp only [hip, hop, Option.bind_eq_bind, Option.some_bind]
  simp only [Int.reduceEq, if_false, if_true]

theorem step_push {registers memory : List Int} {ip : Int}
    (hip : load registers IP = some ip) (hop : load memory ip = some 15) :
    step registers memory = (do
      let ip := ip + 1
      let rs ← load memory ip
      let ip := ip + 1
      if rs = SP then none
      else
        let sp ← load registers SP
        let v ← load registers rs
        let registers ← store registers SP (wrap32 (sp + 1))
        let memory ← store memory sp v
        advance registers memory ip []) := by
  unfold step
  simp only [hip, hop, Option.bind_eq_bind, Option.some_bind]
  simp only [Int.reduceEq, if_false, if_true]

theorem step_pop {registers memory : List Int} {ip : Int}
    (hip : load registers IP = some ip) (hop : load memory ip = some 16) :
    step registers memory = (do
      let ip := ip + 1
      let rd ← load memory ip
      let ip := ip + 1
      if rd = SP then none
      else
        let sp ← load registers SP
        let sp := wrap32 (sp - 1)
        let registers ← store registers SP sp
        let v ← load memory sp
        let registers ← store registers rd v
        advance registers memory ip []) := by
  unfold step
  simp only [hip, hop, Option.bind_eq_bind, Option.some_bind]
  simp only [Int.reduceEq, if_false, if_true]

theorem step_ldlo {registers memory : List Int} {ip : Int}
    (hip : load registers IP = some ip) (hop : load memory ip = some 17) :
    step registers memory = (do
      let ip := ip + 1
      let imm ← load memory ip
      let ip := ip + 1
      let rd ← load memory ip
      let ip := ip + 1
      let fp ← load registers FP
      let v ← load memory (wrap32 (fp + imm))
      let registers ← store registers rd v
      advance registers memory ip []) := by
  unfold step
  simp only [hip, hop, Option.bind_eq_bind, Option.some_bind]
  simp only [Int.reduceEq, if_false, if_true]

theorem step_stlo {registers memory : List Int} {ip : Int}
    (hip : load registers IP = some ip) (hop : load memory ip = some 18) :
    step registers memory = (do
      let ip := ip + 1
      let imm ← load memory ip
      let ip := ip + 1
      let rs ← load memory ip
      let ip := ip + 1
      let fp ← load registers FP
      let v ← load registers rs
      let memory ← store memory (wrap32 (fp + imm)) v
      advance registers memory ip []) := by
  unfold step
  simp only [hip, hop, Option.bind_eq_bind, Option.some_bind]
  simp only [Int.reduceEq, if_false, if_true]

theorem step_invalid {registers memory : List Int} {ip op : Int}
    (hip : load registers IP = some ip) (hop : load memory ip = some op)
    (h : op < 1 ∨ 18 < op) :
    step registers memory = some ⟨1, registers, memory, [], [Diag.invalidOpcode op]⟩ := by
  have h1 : op ≠ 1 := by omega
  have h2 : op ≠ 2 := by omega
  have h3 : op ≠ 3 := by omega
  have h4 : op ≠ 4 := by omega
  have h5 : op ≠ 5 := by omega
  have h6 : op ≠ 6 := by omega
  have h7 : op ≠ 7 := by omega
  have h8 : op ≠ 8 := by omega
  have h9 : op ≠ 9 := by omega
  have h10 : op ≠ 10 := by omega
  have h11 : op ≠ 11 := by omega
  have h12 : op ≠ 12 := by omega
  have h13 : op ≠ 13 := by omega
  have h14 : op ≠ 14 := by omega
  have h15 : op ≠ 15 := by omega
  have h16 : op ≠ 16 := by omega
  have h17 : op ≠ 17 := by omega
  have h18 : op ≠ 18 := by omega
  unfold step
  simp only [hip, hop, Option.bind_eq_bind, Option.some_bind, if_neg, h1, h2, h3, h4, h5, h6,
    h7, h8, h9, h10, h11, h12, h13, h14, h15, h16, h17, h18, not_false_eq_true]
  rfl

theorem wrap32_of_range {x : Int} (h0 : -2147483648 ≤ x) (h1 : x ≤ 2147483647) :
    wrap32 x = x := by
  unfold wrap32
  omega

/-! ## Loader lemmas -/

theorem set_take_drop (memory : List Int) (i : Nat) (v : Int) (h : i < memory.length) :
    memory.set i v = memory.take i ++ v :: memory.drop (i + 1) := by
  rw [List.set_eq_take_append_cons_drop, if_pos h]

/-- When the file holds enough numbers and they fit the memory, the loop of
`read_vmlfile` copies them to `memory[i..]` and leaves the rest as it was. -/
theorem read_words_eq (f : VmlFile) : ∀ (left i : Nat) (data memory : List Int),
    left ≤ data.length → i + left ≤ memory.length →
    read_words f left i data memory =
      some (f.words, memory.take i ++ data.take left ++ memory.drop (i + left), []) := by
  intro left
  induction left with
  | zero =>
    intro i data memory _ _
    simp [read_words]
  | succ n ih =>
    intro i data memory hd hm
    cases data with
    | nil => simp at hd
    | cons v data =>
      have hi : i < memory.length := by omega
      have hs : store memory (i : Int) v = some (memory.set i v) := by
        rw [store_some v (by omega) (by exact_mod_cast hi)]
        simp
      simp only [read_words, hs]
      rw [ih (i + 1) data (memory.set i v) (by simpa using hd) (by simp; omega)]
      congr 2
      rw [set_take_drop memory i v hi]
      have h1 : (List.take i memory).length = i := by simp; omega
      rw [List.take_append_eq_append_take, List.drop_append_eq_append_drop]
      simp [h1, List.take_take]
      have e1 : i + 1 + n - i = n + 1 := by omega
      rw [e1, List.drop_succ_cons, List.drop_drop,
        List.drop_eq_nil_of_le (by rw [h1]; omega), List.nil_append]
      congr 1
      omega

/-! ## Execution engine -/

/-- C1 (as amended): when IP points at `MOVI imm rd` with the three words in
memory and `rd` in 0..31, `step` returns success with memory unchanged; register
`rd` then holds `imm` for every `rd` other than IP (RP, FP and SP included),
and register IP holds the address just past the instruction, also when `rd`
is IP. -/
theorem movi_sets_rd_unless_ip (registers memory : List Int) (ip imm rd : Int)
    (hlen : registers.length = REGS)
    (hip : load registers IP = some ip) (hop : load memory ip = some 1)
    (himm : load memory (ip + 1) = some imm) (hrd : load memory (ip + 2) = some rd)
    (h0 : 0 ≤ rd) (h1 : rd < 32) :
    ∃ r, step registers memory = some r ∧ r.code = 0 ∧ r.memory = memory ∧
      (rd ≠ IP → load r.registers rd = some imm) ∧
      load r.registers IP = some (ip + 3) := by
  have hrd' : load memory (ip + 1 + 1) = some rd := by rw [← hrd]; congr 1; ring
  have hl : rd < registers.length := by rw [hlen]; simp only [REGS]; omega
  have hs : store registers rd imm = some (registers.set rd.toNat imm) := store_some imm h0 hl
  have hs2 : store (registers.set rd.toNat imm) IP (ip + 1 + 1 + 1) =
      some ((registers.set rd.toNat imm).set IP.toNat (ip + 1 + 1 + 1)) :=
    store_some _ (by decide) (by simp [hlen, REGS, IP])
  refine ⟨⟨0, (registers.set rd.toNat imm).set IP.toNat (ip + 1 + 1 + 1), memory, [], []⟩,
    ?_, rfl, rfl, ?_, ?_⟩
  · rw [step_movi hip hop]
    simp [himm, hrd', hs, advance, hs2]
  · intro hne
    show load ((registers.set rd.toNat imm).set IP.toNat (ip + 1 + 1 + 1)) rd = some imm
    rw [load_set_ne _ (by decide) (Ne.symm hne)]
    exact load_set_same _ h0 hl
  · show load ((registers.set rd.toNat imm).set IP.toNat (ip + 1 + 1 + 1)) IP = some (ip + 3)
    rw [load_set_same _ (by decide) (by simp [hlen, REGS, IP])]
    congr 1; ring

set_option maxRecDepth 100000 in
/-- C1, witness: `MOVI 7 r31` at address 0 of a well-formed machine. -/
theorem movi_sets_rd_unless_ip_witness :
    (regsWith 0 5 4).length = REGS ∧ load (regsWith 0 5 4) IP = some 0 ∧
    load (memWith [1, 7, 31]) 0 = some 1 ∧ load (memWith [1, 7, 31]) (0 + 1) = some 7 ∧
    load (memWith [1, 7, 31]) (0 + 2) = some 31 ∧
    ∃ r, step (regsWith 0 5 4) (memWith [1, 7, 31]) = some r ∧ r.code = 0 ∧
      r.memory = memWith [1, 7, 31] ∧
      ((31 : Int) ≠ IP → load r.registers 31 = some 7) ∧
      load r.registers IP = some (0 + 3) :=
  ⟨by decide, by decide, by decide, by decide, by decide,
    movi_sets_rd_unless_ip (regsWith 0 5 4) (memWith [1, 7, 31]) 0 7 31
      (by decide) (by decide) (by decide) (by decide) (by decide) (by decide) (by decide)⟩

set_option maxRecDepth 100000 in
/-- C1, counterexample: `MOVI 7 r0` at address 0 of a well-formed machine
returns success, and register 0 (IP) then holds 3, not the immediate 7. -/
theorem movi_to_ip_counterexample :
    WellFormed (regsWith 0 5 4) (memWith [1, 7, 0]) ∧
    load (regsWith 0 5 4) IP = some 0 ∧
    load (memWith [1, 7, 0]) 0 = some 1 ∧ load (memWith [1, 7, 0]) 1 = some 7 ∧
    load (memWith [1, 7, 0]) 2 = some 0 ∧
    (step (regsWith 0 5 4) (memWith [1, 7, 0])).map (fun r => (r.code, load r.registers 0))
      = some (0, some 3) := by
  decide

/-- C2 (as amended): when IP points at the four words `PUSH r1; POP r2`, SP
holds a valid address and SP does not point at either word of the `POP`
(the push would overwrite it), two steps succeed, leave SP at its initial value
and leave in register 2 the value register 1 held before the `PUSH`. -/
theorem push_pop_restores_sp (registers memory : List Int) (ip sp v : Int)
    (hwf : WellFormed registers memory)
    (hip : load registers IP = some ip)
    (h15 : load memory ip = some 15) (hrs : load memory (ip + 1) = some 1)
    (h16 : load memory (ip + 2) = some 16) (hrd : load memory (ip + 3) = some 2)
    (hsp : load registers SP = some sp) (hsp0 : 0 ≤ sp) (hsp1 : sp < 500)
    (hne2 : sp ≠ ip + 2) (hne3 : sp ≠ ip + 3)
    (hv : load registers 1 = some v) :
    ∃ r1 r2, step registers memory = some r1 ∧ r1.code = 0 ∧
      step r1.registers r1.memory = some r2 ∧ r2.code = 0 ∧
      load r2.registers SP = some sp ∧ load r2.registers 2 = some v := by
  obtain ⟨hlr, hlm⟩ := hwf
  have hw1 : wrap32 (sp + 1) = sp + 1 := wrap32_of_range (by omega) (by omega)
  have hw2 : wrap32 (sp + 1 - 1) = sp := by
    rw [wrap32_of_range (by omega) (by omega)]; omega
  have hw3 : wrap32 sp = sp := wrap32_of_range (by omega) (by omega)
  have hsl : sp < memory.length := by rw [hlm]; simp only [MEMSIZE]; omega
  have d1 : (1 : Int) ≠ SP := by decide
  have d2 : (2 : Int) ≠ SP := by decide
  -- the PUSH
  have e1 : store registers SP (sp + 1) = some (registers.set SP.toNat (sp + 1)) :=
    store_some _ (by decide) (by simp [hlr, REGS, SP])
  have e2 : store memory sp v = some (memory.set sp.toNat v) := store_some _ hsp0 hsl
  have e3 : store (registers.set SP.toNat (sp + 1)) IP (ip + 1 + 1) =
      some ((registers.set SP.toNat (sp + 1)).set IP.toNat (ip + 1 + 1)) :=
    store_some _ (by decide) (by simp [hlr, REGS, IP])
  have s1 : step registers memory =
      some ⟨0, (registers.set SP.toNat (sp + 1)).set IP.toNat (ip + 1 + 1),
        memory.set sp.toNat v, [], []⟩ := by
    rw [step_push hip h15]
    simp [hrs, d1, hsp, hv, hw1, e1, e2, e3, advance]
  -- the POP
  generalize hregs1 : (registers.set SP.toNat (sp + 1)).set IP.toNat (ip + 1 + 1) = regs1 at s1
  generalize hmem1 : memory.set sp.toNat v = mem1 at s1
  have hl1 : regs1.length = 32 := by simp [← hregs1, hlr, REGS]
  have f0 : load regs1 IP = some (ip + 2) := by
    rw [← hregs1, load_set_same _ (by decide) (by simp [hlr, REGS, IP])]
    congr 1; ring
  have f1 : load mem1 (ip + 2) = some 16 := by
    rw [← hmem1, load_set_ne _ hsp0 hne2, h16]
  have f2 : load mem1 (ip + 2 + 1) = some 2 := by
    rw [← hmem1, load_set_ne _ hsp0 (by omega), ← hrd]
    congr 1; ring
  have f3 : load regs1 SP = some (sp + 1) := by
    rw [← hregs1, load_set_ne _ (by decide) (by decide),
      load_set_same _ (by decide) (by simp [hlr, REGS, SP])]
  have f4 : store regs1 SP sp = some (regs1.set SP.toNat sp) :=
    store_some _ (by decide) (by simp [hl1, SP])
  have f5 : load mem1 sp = some v := by
    rw [← hmem1, load_set_same _ hsp0 hsl]
  have f6 : store (regs1.set SP.toNat sp) 2 v =
      some ((regs1.set SP.toNat sp).set 2 v) :=
    store_some _ (by decide) (by simp [hl1])
  have f7 : store ((regs1.set SP.toNat sp).set 2 v) IP (ip + 2 + 1 + 1) =
      some (((regs1.set SP.toNat sp).set 2 v).set IP.toNat (ip + 2 + 1 + 1)) :=
    store_some _ (by decide) (by simp [hl1, IP])
  have s2 : step regs1 mem1 =
      some ⟨0, ((regs1.set SP.toNat sp).set 2 v).set IP.toNat (ip + 2 + 1 + 1),
        mem1, [], []⟩ := by
    rw [step_pop f0 f1]
    simp [f2, d2, f3, hw2, hw3, f4, f5, f6, f7, advance]
  refine ⟨_, _, s1, rfl, s2, rfl, ?_, ?_⟩
  · show load (((regs1.set SP.toNat sp).set (2 : Int).toNat v).set IP.toNat (ip + 2 + 1 + 1)) SP
      = some sp
    rw [load_set_ne _ (by decide) (by decide), load_set_ne _ (by decide) (by decide),
      load_set_same _ (by decide) (by simp [hl1, SP])]
  · show load (((regs1.set SP.toNat sp).set (2 : Int).toNat v).set IP.toNat (ip + 2 + 1 + 1)) 2
      = some v
    rw [load_set_ne _ (by decide) (by decide),
      load_set_same _ (by decide) (by simp [hl1])]

set_option maxRecDepth 100000 in
/-- C2, witness: `PUSH r1; POP r2` at address 0 with SP = 4 and 5 in register 1. -/
theorem push_pop_restores_sp_witness :
    WellFormed (regsWith 0 5 4) (memWith [15, 1, 16, 2]) ∧
    load (regsWith 0 5 4) IP = some 0 ∧
    load (memWith [15, 1, 16, 2]) 0 = some 15 ∧ load (memWith [15, 1, 16, 2]) (0 + 1) = some 1 ∧
    load (memWith [15, 1, 16, 2]) (0 + 2) = some 16 ∧
    load (memWith [15, 1, 16, 2]) (0 + 3) = some 2 ∧
    load (regsWith 0 5 4) SP = some 4 ∧ (0 : Int) ≤ 4 ∧ (4 : Int) < 500 ∧
    (4 : Int) ≠ 0 + 2 ∧ (4 : Int) ≠ 0 + 3 ∧ load (regsWith 0 5 4) 1 = some 5 ∧
    ∃ r1 r2, step (regsWith 0 5 4) (memWith [15, 1, 16, 2]) = some r1 ∧ r1.code = 0 ∧
      step r1.registers r1.memory = some r2 ∧ r2.code = 0 ∧
      load r2.registers SP = some 4 ∧ load r2.registers 2 = some 5 :=
  ⟨by decide, by decide, by decide, by decide, by decide, by decide, by decide, by decide,
    by decide, by decide, by decide, by decide,
    push_pop_restores_sp (regsWith 0 5 4) (memWith [15, 1, 16, 2]) 0 4 5
      (by decide) (by decide) (by decide) (by decide) (by decide) (by decide) (by decide)
      (by decide) (by decide) (by decide) (by decide) (by decide)⟩

set_option maxRecDepth 100000 in
/-- C2, counterexample: `PUSH r1; POP r2` at address 0 with SP = 2 (a valid
address) and 10 in register 1. The push overwrites the `POP` opcode with 10,
so the second step executes `HALT`: it returns -1, SP is left at 3 and register 2
holds 0, not 10. -/
theorem push_pop_overwrites_code_counterexample :
    WellFormed (regsWith 0 10 2) (memWith [15, 1, 16, 2]) ∧
    load (regsWith 0 10 2) IP = some 0 ∧ load (regsWith 0 10 2) SP = some 2 ∧
    load (regsWith 0 10 2) 1 = some 10 ∧
    (memWith [15, 1, 16, 2]).take 4 = [15, 1, 16, 2] ∧
    twoSteps (regsWith 0 10 2) (memWith [15, 1, 16, 2]) = some (-1, some 3, some 0) := by
  decide

/-- C3 (as amended): when IP points at `IDIV rs rd` and register `rs` holds 0,
`step` makes no test of the divisor and reports no Fault: whatever the
dividend, the call has no defined behaviour, so it returns no outcome and
leaves no result in `rd`. -/
theorem idiv_by_zero_undefined (registers memory : List Int) (ip rs : Int)
    (hip : load registers IP = some ip) (hop : load memory ip = some 6)
    (hrs : load memory (ip + 1) = some rs) (hz : load registers rs = some 0) :
    step registers memory = none := by
  rw [step_idiv hip hop]
  simp only [hrs, hz, Option.bind_eq_bind, Option.some_bind]
  cases load memory (ip + 1 + 1) with
  | none => rfl
  | some rd =>
    cases h : load registers rd with
    | none => simp [h]
    | some a => simp [h]

set_option maxRecDepth 100000 in
/-- C3, witness: `IDIV r3 r1` at address 0 with 0 in register 3 and 5 in register 1. -/
theorem idiv_by_zero_undefined_witness :
    load (regsWith 0 5 4) IP = some 0 ∧ load (memWith [6, 3, 1]) 0 = some 6 ∧
    load (memWith [6, 3, 1]) (0 + 1) = some 3 ∧ load (regsWith 0 5 4) 3 = some 0 ∧
    step (regsWith 0 5 4) (memWith [6, 3, 1]) = none :=
  ⟨by decide, by decide, by decide, by decide,
    idiv_by_zero_undefined (regsWith 0 5 4) (memWith [6, 3, 1]) 0 3
      (by decide) (by decide) (by decide) (by decide)⟩

set_option maxRecDepth 100000 in
/-- C3, counterexample: `IDIV r1 r2` at address 0 of a well-formed machine
with 0 in register 1: `step` does not return the error code 1, it returns
nothing. -/
theorem idiv_by_zero_no_fault_counterexample :
    WellFormed (regsWith 0 0 4) (memWith [6, 1, 2]) ∧
    load (regsWith 0 0 4) IP = some 0 ∧ (memWith [6, 1, 2]).take 3 = [6, 1, 2] ∧
    load (regsWith 0 0 4) 1 = some 0 ∧
    step (regsWith 0 0 4) (memWith [6, 1, 2]) = none ∧
    ¬ ∃ r, step (regsWith 0 0 4) (memWith [6, 1, 2]) = some r ∧ r.code = 1 := by
  have h : step (regsWith 0 0 4) (memWith [6, 1, 2]) = none := by decide
  refine ⟨by decide, by decide, by decide, by decide, h, ?_⟩
  rintro ⟨r, hr, -⟩
  rw [h] at hr
  exact Option.noConfusion hr

/-- C4: when IP holds a valid address and the word there is a tag outside
1..18, `step` returns the error code 1 with every register and every memory
cell as before the call; in debug mode the main loop then sets `paused`
(both in the `switch` on the result of `step` and for a whole iteration of a
running debug session), still with the registers and memory unchanged. -/
theorem invalid_opcode_fault (registers memory : List Int) (ip tag : Int)
    (hip : load registers IP = some ip) (hop : load memory ip = some tag)
    (h : tag < 1 ∨ 18 < tag) :
    step registers memory = some ⟨1, registers, memory, [], [Diag.invalidOpcode tag]⟩ ∧
    (∀ s : Session, s.registers = registers → s.memory = memory → s.debug = true →
      run_step s =
        some (Loop.next { s with paused := true, err := s.err ++ [Diag.invalidOpcode tag] })) ∧
    (∀ (file : Option VmlFile) (s : Session), s.registers = registers → s.memory = memory →
      s.debug = true → s.paused = false → ip ≠ s.breakpoint →
      iteration file s =
        some (Loop.next { s with paused := true, err := s.err ++ [Diag.invalidOpcode tag] })) := by
  have hstep := step_invalid hip hop h
  have hrun : ∀ s : Session, s.registers = registers → s.memory = memory → s.debug = true →
      run_step s =
        some (Loop.next { s with paused := true, err := s.err ++ [Diag.invalidOpcode tag] }) := by
    intro s hr hm hd
    unfold run_step
    rw [hr, hm, hstep]
    simp [hd, ← hr, ← hm]
  refine ⟨hstep, hrun, ?_⟩
  intro file s hr hm hd hp hbp
  unfold iteration check_breakpoint
  simp only [hd, hp, hr, hip, Bool.not_false, Bool.and_self, if_true, if_neg hbp,
    Bool.and_false, Bool.false_eq_true, if_false]
  rw [hrun s hr hm hd]
  simp [hd, hr]

set_option maxRecDepth 100000 in
/-- C4, witness: the tag 0 at address 3 of a well-formed machine. -/
theorem invalid_opcode_fault_witness :
    load (regsWith 3 5 4) IP = some 3 ∧ load (memWith [1, 7, 1]) 3 = some 0 ∧
    ((0 : Int) < 1 ∨ (18 : Int) < 0) ∧
    (step (regsWith 3 5 4) (memWith [1, 7, 1]) =
      some ⟨1, regsWith 3 5 4, memWith [1, 7, 1], [], [Diag.invalidOpcode 0]⟩ ∧
    (∀ s : Session, s.registers = regsWith 3 5 4 → s.memory = memWith [1, 7, 1] →
      s.debug = true →
      run_step s =
        some (Loop.next { s with paused := true, err := s.err ++ [Diag.invalidOpcode 0] })) ∧
    (∀ (file : Option VmlFile) (s : Session), s.registers = regsWith 3 5 4 →
      s.memory = memWith [1, 7, 1] →
      s.debug = true → s.paused = false → (3 : Int) ≠ s.breakpoint →
      iteration file s =
        some (Loop.next { s with paused := true, err := s.err ++ [Diag.invalidOpcode 0] }))) :=
  ⟨by decide, by decide, by decide,
    invalid_opcode_fault (regsWith 3 5 4) (memWith [1, 7, 1]) 3 0
      (by decide) (by decide) (by decide)⟩

/-! ### The error code comes from the `default` case only -/

theorem noFault_none : NoFault none := by
  intro r h
  exact Option.noConfusion h

theorem noFault_advance (registers memory : List Int) (ip : Int) (out : List Int) :
    NoFault (advance registers memory ip out) := by
  intro r h
  unfold advance at h
  cases hs : store registers IP ip with
  | none => rw [hs] at h; exact Option.noConfusion h
  | some regs =>
    rw [hs] at h
    have : r = ⟨0, regs, memory, out, []⟩ := (Option.some.inj h).symm
    rw [this]
    show (0 : Int) ≠ 1
    decide

theorem noFault_bind {α : Type} (x : Option α) (f : α → Option StepResult)
    (h : ∀ a, NoFault (f a)) : NoFault (x.bind f) := by
  intro r hr
  cases x with
  | none => exact Option.noConfusion hr
  | some a => exact h a r hr

theorem noFault_ite (c : Prop) [Decidable c] (a b : Option StepResult)
    (ha : NoFault a) (hb : NoFault b) : NoFault (if c then a else b) := by
  split_ifs
  · exact ha
  · exact hb

theorem noFault_halt (registers memory : List Int) :
    NoFault (some ⟨-1, registers, memory, [], []⟩) := by
  intro r h
  rw [← Option.some.inj h]
  show (-1 : Int) ≠ 1
  decide

theorem step_noFault_of_valid {registers memory : List Int} {ip op : Int}
    (hip : load registers IP = some ip) (hop : load memory ip = some op)
    (h1 : 1 ≤ op) (h18 : op ≤ 18) : NoFault (step registers memory) := by
  interval_cases op
  all_goals
    first
    | rw [step_movi hip hop] | rw [step_mov hip hop] | rw [step_add hip hop]
    | rw [step_sub hip hop] | rw [step_mul hip hop] | rw [step_idiv hip hop]
    | rw [step_jmp hip hop] | rw [step_jnz hip hop] | rw [step_out hip hop]
    | rw [step_halt hip hop] | rw [step_ld hip hop] | rw [step_st hip hop]
    | rw [step_jal hip hop] | rw [step_ret hip hop] | rw [step_push hip hop]
    | rw [step_pop hip hop] | rw [step_ldlo hip hop] | rw [step_stlo hip hop]
  all_goals
    simp only [Option.bind_eq_bind, Option.pure_def]
    repeat
      first
      | exact noFault_none
      | exact noFault_advance _ _ _ _
      | exact noFault_halt _ _
      | (apply noFault_bind; intro _)
      | apply noFault_ite

/-- C5 (as amended): `step` makes no bounds check of a memory access and does
not report an access outside the memory as a Fault. When IP holds a valid
address and points at `LD ra rd`, whatever address register `ra` holds, in
particular one outside 0..499, `step` does not return the error code 1; more
generally, when IP holds a valid address and the tag there is in 1..18,
whatever memory the instruction accesses, `step` does not return the error
code 1. What an access outside the memory does instead is not stated. -/
theorem out_of_range_access_no_fault (registers memory : List Int) (ip : Int)
    (hip : load registers IP = some ip) :
    (∀ ra addr, load memory ip = some 11 → load memory (ip + 1) = some ra →
      load registers ra = some addr → (addr < 0 ∨ 500 ≤ addr) →
      ¬ ∃ r, step registers memory = some r ∧ r.code = 1) ∧
    (∀ tag, load memory ip = some tag → 1 ≤ tag → tag ≤ 18 →
      ¬ ∃ r, step registers memory = some r ∧ r.code = 1) := by
  have hgen : ∀ tag, load memory ip = some tag → 1 ≤ tag → tag ≤ 18 →
      ¬ ∃ r, step registers memory = some r ∧ r.code = 1 := by
    intro tag hop h1 h18
    rintro ⟨r, hr, hcode⟩
    exact step_noFault_of_valid hip hop h1 h18 r hr hcode
  refine ⟨?_, hgen⟩
  intro ra addr hop _ _ _
  exact hgen 11 hop (by decide) (by decide)

set_option maxRecDepth 100000 in
/-- C5, witness: `LD r1 r2` at address 0 of a well-formed machine with -1 in
register 1. -/
theorem out_of_range_access_no_fault_witness :
    load (regsWith 0 (-1) 4) IP = some 0 ∧
    load (memWith [11, 1, 2]) 0 = some 11 ∧ load (memWith [11, 1, 2]) (0 + 1) = some 1 ∧
    load (regsWith 0 (-1) 4) 1 = some (-1) ∧
    ((∀ ra addr, load (memWith [11, 1, 2]) 0 = some 11 →
      load (memWith [11, 1, 2]) (0 + 1) = some ra →
      load (regsWith 0 (-1) 4) ra = some addr → (addr < 0 ∨ 500 ≤ addr) →
      ¬ ∃ r, step (regsWith 0 (-1) 4) (memWith [11, 1, 2]) = some r ∧ r.code = 1) ∧
    (∀ tag, load (memWith [11, 1, 2]) 0 = some tag → 1 ≤ tag → tag ≤ 18 →
      ¬ ∃ r, step (regsWith 0 (-1) 4) (memWith [11, 1, 2]) = some r ∧ r.code = 1)) :=
  ⟨by decide, by decide, by decide, by decide,
    out_of_range_access_no_fault (regsWith 0 (-1) 4) (memWith [11, 1, 2]) 0 (by decide)⟩

set_option maxRecDepth 100000 in
/-- C5, counterexample: `LD r1 r2` at address 0 of a well-formed machine with
500 in register 1: `step` does not return the error code 1. -/
theorem ld_out_of_range_counterexample :
    WellFormed (regsWith 0 500 4) (memWith [11, 1, 2]) ∧
    load (regsWith 0 500 4) IP = some 0 ∧ (memWith [11, 1, 2]).take 3 = [11, 1, 2] ∧
    load (regsWith 0 500 4) 1 = some 500 ∧
    ¬ ∃ r, step (regsWith 0 500 4) (memWith [11, 1, 2]) = some r ∧ r.code = 1 := by
  have h : step (regsWith 0 500 4) (memWith [11, 1, 2]) = none := by decide
  refine ⟨by decide, by decide, by decide, by decide, ?_⟩
  rintro ⟨r, hr, -⟩
  rw [h] at hr
  exact Option.noConfusion hr

/-! ### Register operands outside the register file -/

/-- C6 (as amended): `step` makes no check of a register operand and does not
report one outside 0..31 as a Fault. When IP holds a valid address and points
at an instruction one of whose register operand words holds an index outside
0..31, `step` does not return the error code 1; and for `JNZ` with such an
`ra` whose tested register holds 0, `ra` is not used and `step` returns
success with the memory unchanged and IP advanced by 3. What a register access
outside the register file does otherwise is not stated. -/
theorem register_operand_no_fault (registers memory : List Int) (ip op : Int)
    (hip : load registers IP = some ip) (hop : load memory ip = some op) :
    (∀ k x, k ∈ regOperandOffsets op → load memory (ip + k) = some x →
      (x < 0 ∨ 32 ≤ x) → ¬ ∃ r, step registers memory = some r ∧ r.code = 1) ∧
    (∀ rs ra, op = 8 → load memory (ip + 1) = some rs → load memory (ip + 2) = some ra →
      (ra < 0 ∨ 32 ≤ ra) → load registers rs = some 0 →
      ∃ r, step registers memory = some r ∧ r.code = 0 ∧ r.memory = memory ∧
        load r.registers IP = some (ip + 3)) := by
  constructor
  · intro k x hk _ _
    have hvalid : 1 ≤ op ∧ op ≤ 18 := by
      unfold regOperandOffsets at hk
      split_ifs at hk with c1 c2 c3
      · omega
      · omega
      · omega
      · simp at hk
    rintro ⟨r, hr, hcode⟩
    exact step_noFault_of_valid hip hop hvalid.1 hvalid.2 r hr hcode
  · intro rs ra hop8 hrs hra _ ht
    subst hop8
    have hx2 : load memory (ip + 1 + 1) = some ra := by rw [← hra]; congr 1; ring
    have hst := store_of_load (ip + 1 + 1 + 1) hip
    refine ⟨⟨0, registers.set IP.toNat (ip + 1 + 1 + 1), memory, [], []⟩, ?_, rfl, rfl, ?_⟩
    · rw [step_jnz hip hop]
      simp [hrs, hx2, ht, advance, hst]
    · show load (registers.set IP.toNat (ip + 1 + 1 + 1)) IP = some (ip + 3)
      rw [load_set_same _ (load_lt hip).1 (load_lt hip).2]
      congr 1
      ring

set_option maxRecDepth 100000 in
/-- C6, witness: `JNZ r2 r32` at address 0 of a well-formed machine with 0 in
register 2. -/
theorem register_operand_no_fault_witness :
    load (regsWith 0 5 4) IP = some 0 ∧ load (memWith [8, 2, 32]) 0 = some 8 ∧
    (2 : Int) ∈ regOperandOffsets 8 ∧ load (memWith [8, 2, 32]) (0 + 1) = some 2 ∧
    load (memWith [8, 2, 32]) (0 + 2) = some 32 ∧ load (regsWith 0 5 4) 2 = some 0 ∧
    ((∀ k x, k ∈ regOperandOffsets 8 → load (memWith [8, 2, 32]) (0 + k) = some x →
      (x < 0 ∨ 32 ≤ x) →
      ¬ ∃ r, step (regsWith 0 5 4) (memWith [8, 2, 32]) = some r ∧ r.code = 1) ∧
    (∀ rs ra, (8 : Int) = 8 → load (memWith [8, 2, 32]) (0 + 1) = some rs →
      load (memWith [8, 2, 32]) (0 + 2) = some ra →
      (ra < 0 ∨ 32 ≤ ra) → load (regsWith 0 5 4) rs = some 0 →
      ∃ r, step (regsWith 0 5 4) (memWith [8, 2, 32]) = some r ∧ r.code = 0 ∧
        r.memory = memWith [8, 2, 32] ∧ load r.registers IP = some (0 + 3))) :=
  ⟨by decide, by decide, by decide, by decide, by decide, by decide,
    register_operand_no_fault (regsWith 0 5 4) (memWith [8, 2, 32]) 0 8
      (by decide) (by decide)⟩

set_option maxRecDepth 100000 in
/-- C6, counterexample: `MOVI 7 r32` at address 0 of a well-formed machine:
`step` does not return the error code 1. -/
theorem movi_register_out_of_range_counterexample :
    WellFormed (regsWith 0 5 4) (memWith [1, 7, 32]) ∧
    load (regsWith 0 5 4) IP = some 0 ∧ (memWith [1, 7, 32]).take 3 = [1, 7, 32] ∧
    ¬ ∃ r, step (regsWith 0 5 4) (memWith [1, 7, 32]) = some r ∧ r.code = 1 := by
  have h : step (regsWith 0 5 4) (memWith [1, 7, 32]) = none := by decide
  refine ⟨by decide, by decide, by decide, ?_⟩
  rintro ⟨r, hr, -⟩
  rw [h] at hr
  exact Option.noConfusion hr

/-! ## Main loop -/

/-- The program `MOVI v r1; OUT r1; HALT`. -/
theorem reset_movi_out_halt (v : Int) (registers memory : List Int)
    (hwf : WellFormed registers memory) :
    reset_machine registers memory (some ⟨6, [1, v, 1, 9, 1, 10], false⟩) =
      some ⟨0, ((registers.set IP.toNat 0).set SP.toNat 6).set FP.toNat 6,
        [1, v, 1, 9, 1, 10] ++ memory.drop 6, []⟩ := by
  obtain ⟨hlr, hlm⟩ := hwf
  have h1 : store registers IP 0 = some (registers.set IP.toNat 0) :=
    store_some _ (by decide) (by simp [hlr, REGS, IP])
  have h2 : store (registers.set IP.toNat 0) SP 6 = some ((registers.set IP.toNat 0).set SP.toNat 6) :=
    store_some _ (by decide) (by simp [hlr, REGS, SP])
  have h3 : store ((registers.set IP.toNat 0).set SP.toNat 6) FP 6 =
      some (((registers.set IP.toNat 0).set SP.toNat 6).set FP.toNat 6) :=
    store_some _ (by decide) (by simp [hlr, REGS, FP])
  have hr := read_words_eq ⟨6, [1, v, 1, 9, 1, 10], false⟩ 6 0 [1, v, 1, 9, 1, 10] memory
    (by simp) (by rw [hlm]; simp [MEMSIZE])
  unfold reset_machine read_vmlfile
  simp [hr, h1, h2, h3]

/-- C7: for every immediate `v`, whatever the two arrays hold before the
load, the non-debug main loop on the program `MOVI v r1; OUT r1; HALT` returns
0 at its third iteration (each iteration calls `step` once, and after two the
loop is still running); it has then printed exactly `v` on the output and
nothing on `stderr`, and IP is left at the `HALT`. -/
theorem movi_out_halt_exits_zero (v : Int) (registers memory : List Int) (input : List Line)
    (hwf : WellFormed registers memory) :
    ∃ s : Session,
      (∀ fuel, 3 ≤ fuel →
        main false (some ⟨6, [1, v, 1, 9, 1, 10], false⟩) input registers memory fuel =
          some (Loop.exit 0 s)) ∧
      (∃ s', main false (some ⟨6, [1, v, 1, 9, 1, 10], false⟩) input registers memory 2 =
          some (Loop.next s')) ∧
      s.out = [v] ∧ s.err = [] ∧ load s.registers IP = some 5 := by
  have hreset := reset_movi_out_halt v registers memory hwf
  obtain ⟨hlr, hlm⟩ := hwf
  generalize hregs0 : ((registers.set IP.toNat 0).set SP.toNat 6).set FP.toNat 6 = regs0
    at hreset
  generalize hmem0 : [1, v, 1, 9, 1, 10] ++ memory.drop 6 = mem at hreset
  have hl0 : regs0.length = 32 := by simp [← hregs0, hlr, REGS]
  have m0 : load mem 0 = some 1 := by simp [← hmem0, load]
  have m1 : load mem 1 = some v := by simp [← hmem0, load]
  have m2 : load mem 2 = some 1 := by simp [← hmem0, load]
  have m3 : load mem 3 = some 9 := by simp [← hmem0, load]
  have m4 : load mem 4 = some 1 := by simp [← hmem0, load]
  have m5 : load mem 5 = some 10 := by simp [← hmem0, load]
  -- MOVI v r1
  have a0 : load regs0 IP = some 0 := by
    rw [← hregs0, load_set_ne _ (by decide) (by decide), load_set_ne _ (by decide) (by decide),
      load_set_same _ (by decide) (by simp [hlr, REGS, IP])]
  have a1 : store regs0 1 v = some (regs0.set 1 v) := store_some _ (by decide) (by simp [hl0])
  have a2 : store (regs0.set 1 v) IP 3 = some ((regs0.set 1 v).set 0 3) :=
    store_some _ (by decide) (by simp [hl0, IP])
  have s1 : step regs0 mem = some ⟨0, (regs0.set 1 v).set 0 3, mem, [], []⟩ := by
    rw [step_movi a0 m0]
    simp [m1, m2, a1, a2, advance]
  have hl1 : ((regs0.set 1 v).set 0 3).length = 32 := by simp [hl0]
  have b0 : load ((regs0.set 1 v).set 0 3) IP = some 3 :=
    load_set_same (i := IP) _ (by decide) (by simp [hl0, IP])
  have b1 : load ((regs0.set 1 v).set 0 3) 1 = some v := by
    show load ((regs0.set (1 : Int).toNat v).set IP.toNat 3) 1 = some v
    rw [load_set_ne _ (by decide) (by decide)]
    exact load_set_same _ (by decide) (by simp [hl0])
  generalize (regs0.set 1 v).set 0 3 = regs1 at s1 hl1 b0 b1
  -- OUT r1
  have b2 : store regs1 IP 5 = some (regs1.set 0 5) :=
    store_some _ (by decide) (by simp [hl1, IP])
  have s2 : step regs1 mem = some ⟨0, regs1.set 0 5, mem, [v], []⟩ := by
    rw [step_out b0 m3]
    simp [m4, b1, b2, advance]
  have c0 : load (regs1.set 0 5) IP = some 5 :=
    load_set_same (i := IP) _ (by decide) (by simp [hl1, IP])
  generalize regs1.set 0 5 = regs2 at s2 c0
  -- HALT
  have s3 : step regs2 mem = some ⟨-1, regs2, mem, [], []⟩ := by
    rw [step_halt c0 m5]
    rfl
  refine ⟨⟨false, false, -1, regs2, mem, input, [v], []⟩, ?_, ?_, rfl, rfl, c0⟩
  · intro fuel hfuel
    obtain ⟨n, rfl⟩ : ∃ n, fuel = n + 3 := ⟨fuel - 3, by omega⟩
    simp [main, hreset, run, iteration, check_breakpoint, run_step, s1, s2, s3]
  · simp [main, hreset, run, iteration, check_breakpoint, run_step, s1, s2]

set_option maxRecDepth 100000 in
/-- C7, witness: `MOVI 7 r1; OUT r1; HALT`. -/
theorem movi_out_halt_exits_zero_witness :
    WellFormed (regsWith 3 3 3) (memWith []) ∧
    ∃ s : Session,
      (∀ fuel, 3 ≤ fuel →
        main false (some ⟨6, [1, 7, 1, 9, 1, 10], false⟩) [] (regsWith 3 3 3) (memWith []) fuel =
          some (Loop.exit 0 s)) ∧
      (∃ s', main false (some ⟨6, [1, 7, 1, 9, 1, 10], false⟩) [] (regsWith 3 3 3) (memWith []) 2 =
          some (Loop.next s')) ∧
      s.out = [7] ∧ s.err = [] ∧ load s.registers IP = some 5 :=
  ⟨by decide, movi_out_halt_exits_zero 7 (regsWith 3 3 3) (memWith []) [] (by decide)⟩

/-! ## Register and address resolvers -/

theorem tolower_i : tolower 'i' = 105 := by decide
theorem tolower_r : tolower 'r' = 114 := by decide
theorem tolower_f : tolower 'f' = 102 := by decide
theorem tolower_s : tolower 's' = 115 := by decide
theorem tolower_p : tolower 'p' = 112 := by decide

theorem strcaseeq_pair (arg : List Char) (x y : Char) :
    strcaseeq arg [x, y] = true ↔
      ∃ a b, arg = [a, b] ∧ tolower a = tolower x ∧ tolower b = tolower y := by
  cases arg with
  | nil => simp [strcaseeq]
  | cons a t =>
    cases t with
    | nil => simp [strcaseeq]
    | cons b u =>
      cases u with
      | nil =>
        simp only [strcaseeq, Bool.and_true, Bool.and_eq_true, beq_iff_eq]
        constructor
        · rintro ⟨h1, h2⟩
          exact ⟨a, b, rfl, h1, h2⟩
        · rintro ⟨a', b', he, h1, h2⟩
          obtain ⟨rfl, rfl⟩ : a = a' ∧ b = b' := by simpa using he
          exact ⟨h1, h2⟩
      | cons c w => simp [strcaseeq]

theorem get_reg_arg_ip (arg : List Char) (h : strcaseeq arg ['i', 'p'] = true) :
    get_reg_arg arg = some IP := by
  unfold get_reg_arg
  rw [if_pos h]

theorem get_reg_arg_rp (arg : List Char) (h : strcaseeq arg ['r', 'p'] = true) :
    get_reg_arg arg = some RP := by
  obtain ⟨a, b, rfl, ha, hb⟩ := (strcaseeq_pair arg _ _).mp h
  unfold get_reg_arg
  simp [strcaseeq, ha, hb, tolower_i, tolower_r, tolower_p]

theorem get_reg_arg_fp (arg : List Char) (h : strcaseeq arg ['f', 'p'] = true) :
    get_reg_arg arg = some FP := by
  obtain ⟨a, b, rfl, ha, hb⟩ := (strcaseeq_pair arg _ _).mp h
  unfold get_reg_arg
  simp [strcaseeq, ha, hb, tolower_i, tolower_r, tolower_f, tolower_p]

theorem get_reg_arg_sp (arg : List Char) (h : strcaseeq arg ['s', 'p'] = true) :
    get_reg_arg arg = some SP := by
  obtain ⟨a, b, rfl, ha, hb⟩ := (strcaseeq_pair arg _ _).mp h
  unfold get_reg_arg
  simp [strcaseeq, ha, hb, tolower_i, tolower_r, tolower_f, tolower_s, tolower_p]

/-- C8: for every register file, `get_addr_arg` on a token equal to `sp` up to
letter case yields the value held in register 31 when that value is a valid
memory address (and -1 otherwise), while on the literal token `31` it yields
the address 31; the two results differ whenever SP's value is not 31. -/
theorem sp_token_resolves_to_value (regs : List Int) (v : Int)
    (hv : load regs SP = some v) :
    (∀ arg, strcaseeq arg ['s', 'p'] = true →
      (get_addr_arg arg regs).map Prod.fst = some (if 0 ≤ v ∧ v < 500 then v else -1)) ∧
    get_addr_arg ['3', '1'] regs = some (31, []) ∧
    (v ≠ 31 → ∀ arg, strcaseeq arg ['s', 'p'] = true →
      (get_addr_arg arg regs).map Prod.fst ≠ (get_addr_arg ['3', '1'] regs).map Prod.fst ∧
      (get_addr_arg arg regs).map Prod.fst ≠ some 31) := by
  have h31 : get_addr_arg ['3', '1'] regs = some (31, []) := by rfl
  have hsp : ∀ arg, strcaseeq arg ['s', 'p'] = true →
      (get_addr_arg arg regs).map Prod.fst = some (if 0 ≤ v ∧ v < 500 then v else -1) := by
    intro arg h
    have hreg := get_reg_arg_sp arg h
    obtain ⟨a, b, rfl, -, -⟩ := (strcaseeq_pair arg _ _).mp h
    unfold get_addr_arg
    simp only [hreg]
    rw [if_pos (by decide), hv]
    simp only [Option.map_some', checkAddr, MEMSIZE]
    split_ifs <;> first | rfl | omega
  refine ⟨hsp, h31, ?_⟩
  intro hne arg h
  rw [hsp arg h, h31]
  simp only [Option.map_some']
  split_ifs with hin
  · simpa using hne
  · decide

set_option maxRecDepth 100000 in
/-- C8, witness: a register file with 4 in SP, and the four spellings of `sp`. -/
theorem sp_token_resolves_to_value_witness :
    load (regsWith 0 5 4) SP = some 4 ∧
    ((∀ arg, strcaseeq arg ['s', 'p'] = true →
      (get_addr_arg arg (regsWith 0 5 4)).map Prod.fst =
        some (if (0 : Int) ≤ 4 ∧ (4 : Int) < 500 then 4 else -1)) ∧
    get_addr_arg ['3', '1'] (regsWith 0 5 4) = some (31, []) ∧
    ((4 : Int) ≠ 31 → ∀ arg, strcaseeq arg ['s', 'p'] = true →
      (get_addr_arg arg (regsWith 0 5 4)).map Prod.fst ≠
        (get_addr_arg ['3', '1'] (regsWith 0 5 4)).map Prod.fst ∧
      (get_addr_arg arg (regsWith 0 5 4)).map Prod.fst ≠ some 31)) ∧
    strcaseeq ['s', 'p'] ['s', 'p'] = true ∧ strcaseeq ['s', 'P'] ['s', 'p'] = true ∧
    strcaseeq ['S', 'p'] ['s', 'p'] = true ∧ strcaseeq ['S', 'P'] ['s', 'p'] = true ∧
    get_addr_arg ['S', 'P'] (regsWith 0 5 4) = some (4, []) :=
  ⟨by decide, sp_token_resolves_to_value (regsWith 0 5 4) 4 (by decide),
    by decide, by decide, by decide, by decide, by decide⟩

theorem tolower_R : tolower 'R' = 114 := by decide

theorem strcaseeq_false_of_head (c : Char) (rest : List Char) (x y : Char)
    (h : tolower c ≠ tolower x) : strcaseeq (c :: rest) [x, y] = false := by
  cases hb : strcaseeq (c :: rest) [x, y] with
  | false => rfl
  | true =>
    obtain ⟨a, b, he, ha, -⟩ := (strcaseeq_pair _ _ _).mp hb
    have : c = a := by simp at he; exact he.1
    rw [this] at h
    exact absurd ha h

theorem get_reg_arg_numbered (c : Char) (rest : List Char) (hc : c = 'r' ∨ c = 'R')
    (hrp : strcaseeq (c :: rest) ['r', 'p'] = false) :
    get_reg_arg (c :: rest) =
      (atoi rest).bind (fun regnum => if regnum < 0 ∨ regnum ≥ 32 then some (-1) else some regnum) := by
  have hl : tolower c = 114 := by
    rcases hc with rfl | rfl
    · exact tolower_r
    · exact tolower_R
  have h1 : strcaseeq (c :: rest) ['i', 'p'] = false :=
    strcaseeq_false_of_head c rest _ _ (by rw [hl, tolower_i]; decide)
  have h3 : strcaseeq (c :: rest) ['f', 'p'] = false :=
    strcaseeq_false_of_head c rest _ _ (by rw [hl, tolower_f]; decide)
  have h4 : strcaseeq (c :: rest) ['s', 'p'] = false :=
    strcaseeq_false_of_head c rest _ _ (by rw [hl, tolower_s]; decide)
  have hc' : ¬ (c ≠ 'r' ∧ c ≠ 'R') := by
    rcases hc with rfl | rfl <;> simp
  unfold get_reg_arg
  simp only [h1, hrp, h3, h4, Bool.false_eq_true, if_false, if_neg hc']
  cases atoi rest with
  | none => rfl
  | some n => simp [REGS]

theorem get_reg_arg_range (arg : List Char) (k : Int) (h : get_reg_arg arg = some k) :
    k = -1 ∨ (0 ≤ k ∧ k < 32) := by
  unfold get_reg_arg at h
  split_ifs at h with h1 h2 h3 h4
  · right; rw [← Option.some.inj h]; decide
  · right; rw [← Option.some.inj h]; decide
  · right; rw [← Option.some.inj h]; decide
  · right; rw [← Option.some.inj h]; decide
  · cases arg with
    | nil => left; exact (Option.some.inj h).symm
    | cons c rest =>
      simp only at h
      split_ifs at h with h5
      · left; exact (Option.some.inj h).symm
      · cases ha : atoi rest with
        | none => rw [ha] at h; exact Option.noConfusion h
        | some n =>
          rw [ha] at h
          simp only [REGS] at h
          split_ifs at h with h6
          · left; exact (Option.some.inj h).symm
          · right
            rw [← Option.some.inj h]
            push_neg at h6
            exact ⟨h6.1, by exact_mod_cast h6.2⟩

theorem get_reg_arg_other (arg : List Char)
    (hhead : ∀ c rest, arg = c :: rest → c ≠ 'r' ∧ c ≠ 'R')
    (h1 : strcaseeq arg ['i', 'p'] = false) (h3 : strcaseeq arg ['f', 'p'] = false)
    (h4 : strcaseeq arg ['s', 'p'] = false) : get_reg_arg arg = some (-1) := by
  unfold get_reg_arg
  cases arg with
  | nil => rfl
  | cons c rest =>
    have hc := hhead c rest rfl
    have hl : tolower c ≠ tolower 'r' := by
      rw [tolower_r]
      intro hcon
      unfold tolower at hcon
      split_ifs at hcon with hu
      · have h82 : c.toNat = 82 := by omega
        have : c = 'R' := by rw [← Char.ofNat_toNat c, h82]
        exact hc.2 this
      · have : c = 'r' := by rw [← Char.ofNat_toNat c, hcon]
        exact hc.1 this
    have h2 := strcaseeq_false_of_head c rest 'r' 'p' hl
    simp only [h1, h2, h3, h4, Bool.false_eq_true, if_false]
    rw [if_pos hc]

/-- C9 (as amended): `get_reg_arg` returns either -1 or an index in 0..31.
It returns the index `k` if and only if the token is one of the mnemonics
ip/rp/fp/sp up to letter case (0/29/30/31), or is the letter r or R followed
by text on which `atoi` yields `k` with `0 <= k < 32`, where `atoi` reads the
leading decimal digits after optional white space and sign and stops at the
first other character, yielding 0 when there is no digit. So r or R followed
by the decimal numeral of n < 32 gives n, a token that is no mnemonic and
does not start with r or R gives -1, and `r32` and `7` give -1. -/
theorem get_reg_arg_characterisation :
    (∀ arg k, get_reg_arg arg = some k → k = -1 ∨ (0 ≤ k ∧ k < 32)) ∧
    (∀ arg k, 0 ≤ k →
      (get_reg_arg arg = some k ↔
        (strcaseeq arg ['i', 'p'] = true ∧ k = 0) ∨
        (strcaseeq arg ['r', 'p'] = true ∧ k = 29) ∨
        (strcaseeq arg ['f', 'p'] = true ∧ k = 30) ∨
        (strcaseeq arg ['s', 'p'] = true ∧ k = 31) ∨
        (strcaseeq arg ['r', 'p'] = false ∧
          ∃ c rest, arg = c :: rest ∧ (c = 'r' ∨ c = 'R') ∧ atoi rest = some k ∧ k < 32))) ∧
    (∀ n : Nat, n < 32 →
      get_reg_arg ('r' :: (Nat.repr n).toList) = some (n : Int) ∧
      get_reg_arg ('R' :: (Nat.repr n).toList) = some (n : Int)) ∧
    (∀ arg, (∀ c rest, arg = c :: rest → c ≠ 'r' ∧ c ≠ 'R') →
      strcaseeq arg ['i', 'p'] = false → strcaseeq arg ['f', 'p'] = false →
      strcaseeq arg ['s', 'p'] = false → get_reg_arg arg = some (-1)) ∧
    get_reg_arg ['r', '3', '2'] = some (-1) ∧ get_reg_arg ['7'] = some (-1) := by
  refine ⟨get_reg_arg_range, ?_, ?_, ?_, by decide, by decide⟩
  · intro arg k hk
    constructor
    · intro h
      by_cases h1 : strcaseeq arg ['i', 'p'] = true
      · left
        rw [get_reg_arg_ip arg h1] at h
        exact ⟨h1, (Option.some.inj h).symm⟩
      by_cases h2 : strcaseeq arg ['r', 'p'] = true
      · right; left
        rw [get_reg_arg_rp arg h2] at h
        exact ⟨h2, (Option.some.inj h).symm⟩
      by_cases h3 : strcaseeq arg ['f', 'p'] = true
      · right; right; left
        rw [get_reg_arg_fp arg h3] at h
        exact ⟨h3, (Option.some.inj h).symm⟩
      by_cases h4 : strcaseeq arg ['s', 'p'] = true
      · right; right; right; left
        rw [get_reg_arg_sp arg h4] at h
        exact ⟨h4, (Option.some.inj h).symm⟩
      right; right; right; right
      have h2' : strcaseeq arg ['r', 'p'] = false := by simpa using h2
      refine ⟨h2', ?_⟩
      unfold get_reg_arg at h
      rw [if_neg h1, if_neg h2, if_neg h3, if_neg h4] at h
      cases arg with
      | nil =>
        have := Option.some.inj h
        omega
      | cons c rest =>
        simp only at h
        split_ifs at h with h5
        · have := Option.some.inj h
          omega
        · have hc : c = 'r' ∨ c = 'R' := by
            by_contra hcon
            push_neg at hcon
            exact h5 hcon
          cases ha : atoi rest with
          | none => rw [ha] at h; exact Option.noConfusion h
          | some n =>
            rw [ha] at h
            simp only [REGS] at h
            split_ifs at h with h6
            · have := Option.some.inj h
              omega
            · have hn : n = k := Option.some.inj h
              push_neg at h6
              exact ⟨c, rest, rfl, hc, hn ▸ ha, by rw [← hn]; exact_mod_cast h6.2⟩
    · rintro (⟨h, rfl⟩ | ⟨h, rfl⟩ | ⟨h, rfl⟩ | ⟨h, rfl⟩ | ⟨hrp, c, rest, rfl, hc, ha, hlt⟩)
      · exact get_reg_arg_ip arg h
      · exact get_reg_arg_rp arg h
      · exact get_reg_arg_fp arg h
      · exact get_reg_arg_sp arg h
      · rw [get_reg_arg_numbered c rest hc hrp, ha]
        simp only [Option.some_bind]
        rw [if_neg (by omega)]
  · intro n hn
    interval_cases n <;> decide
  · exact get_reg_arg_other

/-- C9, counterexample: the tokens `r`, `rx` and `r5abc` are resolved to the
register indices 0, 0 and 5, not to -1. -/
theorem get_reg_arg_lenient_counterexample :
    get_reg_arg ['r'] = some 0 ∧ get_reg_arg ['r', 'x'] = some 0 ∧
    get_reg_arg ['r', '5', 'a', 'b', 'c'] = some 5 := by
  decide

theorem get_reg_arg_digit (c : Char) (rest : List Char) (hd : isdigit c = true) :
    get_reg_arg (c :: rest) = some (-1) := by
  have hr : 48 ≤ c.toNat ∧ c.toNat ≤ 57 := by simpa [isdigit] using hd
  have hl : tolower c = c.toNat := by
    unfold tolower
    rw [if_neg (by omega)]
  apply get_reg_arg_other
  · intro c' rest' he
    obtain ⟨rfl, -⟩ : c = c' ∧ rest = rest' := by simpa using he
    constructor
    · rintro rfl
      revert hd
      decide
    · rintro rfl
      revert hd
      decide
  · exact strcaseeq_false_of_head c rest _ _ (by rw [hl, tolower_i]; omega)
  · exact strcaseeq_false_of_head c rest _ _ (by rw [hl, tolower_f]; omega)
  · exact strcaseeq_false_of_head c rest _ _ (by rw [hl, tolower_s]; omega)

theorem checkAddr_range (a : Int) : (checkAddr a).1 = -1 ∨ (0 ≤ (checkAddr a).1 ∧ (checkAddr a).1 < 500) := by
  unfold checkAddr
  simp only [MEMSIZE]
  split_ifs with h
  · left; rfl
  · right
    push_neg at h
    exact ⟨h.1, by exact_mod_cast h.2⟩

theorem checkAddr_out (a : Int) (h : a < 0 ∨ 500 ≤ a) :
    checkAddr a = (-1, [Diag.addressOutOfRange a]) := by
  unfold checkAddr
  rw [if_pos (by simp only [MEMSIZE]; omega)]

/-- C10 (as amended): for every token and every register file, an address
returned by `get_addr_arg` is -1 or lies in 0..499, so every success is within
the memory bounds; the empty token, a token that is neither a register name
nor digit-led, a register name whose register holds a value outside 0..499,
and a digit-led literal on which `atoi` yields a value outside 0..499 all
yield -1, each with its own message. `atoi` yields a value when the number
fits a C `int` (so `500` and `2147483647` yield -1); nothing is said of a
larger literal. -/
theorem get_addr_arg_in_bounds (arg : List Char) (regs : List Int) :
    (∀ a e, get_addr_arg arg regs = some (a, e) → a = -1 ∨ (0 ≤ a ∧ a < 500)) ∧
    get_addr_arg [] regs = some (-1, [Diag.addressRequired]) ∧
    (∀ c rest, arg = c :: rest → get_reg_arg arg = some (-1) → isdigit c = false →
      get_addr_arg arg regs = some (-1, [Diag.badAddress arg])) ∧
    (∀ k v, arg ≠ [] → get_reg_arg arg = some k → 0 ≤ k → load regs k = some v →
      (v < 0 ∨ 500 ≤ v) → get_addr_arg arg regs = some (-1, [Diag.addressOutOfRange v])) ∧
    (∀ c rest n, arg = c :: rest → isdigit c = true → atoi arg = some n →
      (n < 0 ∨ 500 ≤ n) → get_addr_arg arg regs = some (-1, [Diag.addressOutOfRange n])) ∧
    get_addr_arg ['5', '0', '0'] regs = some (-1, [Diag.addressOutOfRange 500]) ∧
    get_addr_arg ['2', '1', '4', '7', '4', '8', '3', '6', '4', '7'] regs =
      some (-1, [Diag.addressOutOfRange 2147483647]) := by
  refine ⟨?_, rfl, ?_, ?_, ?_, rfl, rfl⟩
  · intro a e h
    unfold get_addr_arg at h
    cases arg with
    | nil =>
      left
      have := Option.some.inj h
      exact (congrArg Prod.fst this).symm
    | cons c rest =>
      simp only at h
      cases hr : get_reg_arg (c :: rest) with
      | none => rw [hr] at h; exact Option.noConfusion h
      | some regnum =>
        rw [hr] at h
        simp only at h
        split_ifs at h with h1 h2
        · cases hl : load regs regnum with
          | none => rw [hl] at h; exact Option.noConfusion h
          | some x =>
            rw [hl] at h
            have := congrArg Prod.fst (Option.some.inj h)
            simp only at this
            rw [← this]
            exact checkAddr_range x
        · cases hl : atoi (c :: rest) with
          | none => rw [hl] at h; exact Option.noConfusion h
          | some x =>
            rw [hl] at h
            have := congrArg Prod.fst (Option.some.inj h)
            simp only at this
            rw [← this]
            exact checkAddr_range x
        · left
          exact (congrArg Prod.fst (Option.some.inj h)).symm
  · rintro c rest rfl hr hd
    unfold get_addr_arg
    simp only [hr]
    rw [if_neg (by decide), if_neg (by simp [hd])]
  · intro k v hne hr hk hv hrange
    cases arg with
    | nil => exact absurd rfl hne
    | cons c rest =>
      unfold get_addr_arg
      simp only [hr]
      rw [if_pos hk, hv]
      simp only [Option.map_some', checkAddr_out v hrange]
  · rintro c rest n rfl hd ha hrange
    unfold get_addr_arg
    simp only [get_reg_arg_digit c rest hd]
    rw [if_neg (by decide), if_pos hd, ha]
    simp only [Option.map_some', checkAddr_out n hrange]

set_option maxRecDepth 100000 in
/-- C10, counterexample: on the digit-led literal `4294967296`, which is out of
range, `get_addr_arg` does not return -1: the value does not fit an `int`, the
call of `atoi` has no defined behaviour, and no result is returned. -/
theorem get_addr_arg_huge_literal_counterexample :
    isdigit '4' = true ∧
    atoi ['4', '2', '9', '4', '9', '6', '7', '2', '9', '6'] = none ∧
    get_addr_arg ['4', '2', '9', '4', '9', '6', '7', '2', '9', '6'] (regsWith 0 5 4) = none ∧
    get_addr_arg ['4', '2', '9', '4', '9', '6', '7', '2', '9', '6'] (regsWith 0 5 4) ≠
      some (-1, [Diag.addressOutOfRange 4294967296]) := by
  decide

/-! ## Reset -/

/-- A successful `reset_machine` in closed form. -/
theorem reset_machine_eq (registers memory : List Int) (words : Int) (data : List Int)
    (bad : Bool) (hwf : WellFormed registers memory) (h0 : 0 ≤ words)
    (hN : words ≤ data.length) (hM : words ≤ 500) :
    reset_machine registers memory (some ⟨words, data, bad⟩) =
      some ⟨0, ((registers.set IP.toNat 0).set SP.toNat words).set FP.toNat words,
        data.take words.toNat ++ memory.drop words.toNat, []⟩ := by
  obtain ⟨hlr, hlm⟩ := hwf
  have h1 : store registers IP 0 = some (registers.set IP.toNat 0) :=
    store_some _ (by decide) (by simp [hlr, REGS, IP])
  have h2 : store (registers.set IP.toNat 0) SP words =
      some ((registers.set IP.toNat 0).set SP.toNat words) :=
    store_some _ (by decide) (by simp [hlr, REGS, SP])
  have h3 : store ((registers.set IP.toNat 0).set SP.toNat words) FP words =
      some (((registers.set IP.toNat 0).set SP.toNat words).set FP.toNat words) :=
    store_some _ (by decide) (by simp [hlr, REGS, FP])
  have hr := read_words_eq ⟨words, data, bad⟩ words.toNat 0 data memory
    (by omega) (by rw [hlm]; simp only [MEMSIZE]; omega)
  unfold reset_machine read_vmlfile
  simp only [if_neg (not_lt.mpr h0), hr, Option.bind_eq_bind, Option.some_bind, h1, h2, h3,
    Option.pure_def, List.take_zero, List.nil_append, Nat.zero_add]

/-- C11 (as amended): for every program image of N words (0 <= N <= 500) and
every prior well-formed machine state, `reset_machine` succeeds and yields
IP = 0, FP = SP = N and memory cells 0..N-1 equal to the image; every other
register (1..29) and every memory cell from N up keeps the value it had before
the call (nothing is zero-filled). Resetting the result again gives the same
registers and memory (idempotent reset). -/
theorem reset_machine_snapshot (registers memory : List Int) (words : Int) (data : List Int)
    (bad : Bool) (hwf : WellFormed registers memory) (h0 : 0 ≤ words)
    (hN : words ≤ data.length) (hM : words ≤ 500) :
    ∃ regs mem, reset_machine registers memory (some ⟨words, data, bad⟩) =
        some ⟨0, regs, mem, []⟩ ∧
      WellFormed regs mem ∧
      load regs IP = some 0 ∧ load regs FP = some words ∧ load regs SP = some words ∧
      (∀ i, i ≠ IP → i ≠ FP → i ≠ SP → load regs i = load registers i) ∧
      (∀ j, 0 ≤ j → j < words → load mem j = data[j.toNat]?) ∧
      (∀ j, words ≤ j → load mem j = load memory j) ∧
      reset_machine regs mem (some ⟨words, data, bad⟩) = some ⟨0, regs, mem, []⟩ := by
  have hreset := reset_machine_eq registers memory words data bad hwf h0 hN hM
  obtain ⟨hlr, hlm⟩ := hwf
  have hlt : (data.take words.toNat).length = words.toNat := by
    rw [List.length_take]; omega
  have hwf' : WellFormed (((registers.set IP.toNat 0).set SP.toNat words).set FP.toNat words)
      (data.take words.toNat ++ memory.drop words.toNat) := by
    constructor
    · simp [hlr]
    · rw [List.length_append, hlt, List.length_drop, hlm]
      simp only [MEMSIZE]
      omega
  refine ⟨_, _, hreset, hwf', ?_, ?_, ?_, ?_, ?_, ?_, ?_⟩
  · rw [load_set_ne _ (by decide) (by decide), load_set_ne _ (by decide) (by decide),
      load_set_same _ (by decide) (by simp [hlr, REGS, IP])]
  · rw [load_set_same _ (by decide) (by simp [hlr, REGS, FP])]
  · rw [load_set_ne _ (by decide) (by decide),
      load_set_same _ (by decide) (by simp [hlr, REGS, SP])]
  · intro i hi hf hs
    rw [load_set_ne _ (by decide) (Ne.symm hf), load_set_ne _ (by decide) (Ne.symm hs),
      load_set_ne _ (by decide) (Ne.symm hi)]
  · intro j hj0 hj
    unfold load
    rw [if_pos hj0, List.getElem?_append_left (by rw [hlt]; omega), List.getElem?_take]
    rw [if_pos (by omega)]
  · intro j hj
    unfold load
    have hj0 : 0 ≤ j := le_trans h0 hj
    rw [if_pos hj0, if_pos hj0, List.getElem?_append_right (by rw [hlt]; omega), hlt,
      List.getElem?_drop]
    congr 1
    omega
  · rw [reset_machine_eq _ _ words data bad hwf' h0 hN hM]
    congr 2
    · apply List.ext_getElem?
      intro n
      simp only [List.getElem?_set, List.length_set, IP, SP, FP]
      split_ifs <;> rfl
    · rw [List.drop_left' hlt]

set_option maxRecDepth 100000 in
/-- C11, witness: the one-word program `HALT` loaded over a machine holding 7
in register 1. -/
theorem reset_machine_snapshot_witness :
    WellFormed (regsWith 0 7 0) (memWith []) ∧ (0 : Int) ≤ 1 ∧
    (1 : Int) ≤ ([10] : List Int).length ∧ (1 : Int) ≤ 500 ∧
    ∃ regs mem, reset_machine (regsWith 0 7 0) (memWith []) (some ⟨1, [10], false⟩) =
        some ⟨0, regs, mem, []⟩ ∧
      WellFormed regs mem ∧
      load regs IP = some 0 ∧ load regs FP = some 1 ∧ load regs SP = some 1 ∧
      (∀ i, i ≠ IP → i ≠ FP → i ≠ SP → load regs i = load (regsWith 0 7 0) i) ∧
      (∀ j, 0 ≤ j → j < 1 → load mem j = ([10] : List Int)[j.toNat]?) ∧
      (∀ j, 1 ≤ j → load mem j = load (memWith []) j) ∧
      reset_machine regs mem (some ⟨1, [10], false⟩) = some ⟨0, regs, mem, []⟩ :=
  ⟨by decide, by decide, by decide, by decide,
    reset_machine_snapshot (regsWith 0 7 0) (memWith []) 1 [10] false
      (by decide) (by decide) (by decide) (by decide)⟩

set_option maxRecDepth 100000 in
/-- C11, counterexample: the program `MOVI 7 r1; PUSH r1; HALT` (6 words) is
loaded into arrays holding 0 everywhere, two steps are executed and the
machine is reset. In the first snapshot register 1 and memory cell 6 hold 0;
in the snapshot after the reset they hold 7: the reset neither zeroes them nor
reproduces the first snapshot. -/
theorem reset_keeps_registers_counterexample :
    (reset_machine (List.replicate 32 0) (List.replicate 500 0)
        (some ⟨6, [1, 7, 1, 15, 1, 10], false⟩)).bind (fun a =>
      (step a.registers a.memory).bind (fun r1 =>
        (step r1.registers r1.memory).bind (fun r2 =>
          (reset_machine r2.registers r2.memory (some ⟨6, [1, 7, 1, 15, 1, 10], false⟩)).map
            (fun b => [some a.code, some r1.code, some r2.code, some b.code,
              load a.registers 1, load a.memory 6, load b.registers 1, load b.memory 6]))))
      = some [some 0, some 0, some 0, some 0, some 0, some 0, some 7, some 7] := by
  decide

/-! ## Debugger session -/

/-- An iteration of a paused debug session that reads a command line. -/
theorem iteration_paused (file : Option VmlFile) (s : Session) (ip : Int) (l : Line)
    (rest : List Line) (hd : s.debug = true) (hp : s.paused = true)
    (hip : load s.registers IP = some ip) (hin : s.input = l :: rest) (hc : l.cmd ≠ []) :
    iteration file s =
      if is_prefix l.cmd "continue".toList then
        run_step { s with paused := false, input := rest, err := s.err ++ [Diag.prompt ip] }
      else if is_prefix l.cmd "step".toList then
        run_step { s with input := rest, err := s.err ++ [Diag.prompt ip] }
      else
        run_command file { s with input := rest, err := s.err ++ [Diag.prompt ip] }
          l.cmd l.arg (if l.arg = [] then 1 else 2) := by
  have hcb : check_breakpoint s = some s := by
    unfold check_breakpoint
    simp [hd, hp]
  have hrc : read_command ip s.input =
      ⟨if l.arg = [] then 1 else 2, l.cmd, l.arg, rest, [Diag.prompt ip]⟩ := by
    rw [hin]
    unfold read_command
    rw [if_neg hc]
  have hargs : ¬ ((if l.arg = [] then (1 : Int) else 2) < 0) := by
    split_ifs <;> decide
  unfold iteration
  simp only [hcb, hd, hp, hip, hrc, Bool.and_self, if_true, if_neg hargs]

/-- C12: in a paused debug session, whatever the breakpoint (in particular
when it equals the current IP), the iteration of the main loop that reads a
`continue` command clears `paused` and calls `step` in that same iteration:
the iteration is the call of `step` on the unpaused session, and when `step`
returns success the session goes on unpaused with the machine state `step` has
left, the breakpoint not having been compared with IP in between. -/
theorem continue_steps_before_breakpoint (file : Option VmlFile) (s : Session) (ip : Int)
    (l : Line) (rest : List Line) (hd : s.debug = true) (hp : s.paused = true)
    (hip : load s.registers IP = some ip) (hin : s.input = l :: rest) (hc : l.cmd ≠ [])
    (hcont : is_prefix l.cmd "continue".toList = true) :
    check_breakpoint s = some s ∧
    iteration file s =
      run_step { s with paused := false, input := rest, err := s.err ++ [Diag.prompt ip] } ∧
    (∀ r, step s.registers s.memory = some r → r.code = 0 →
      iteration file s = some (Loop.next
        { s with paused := false, input := rest, registers := r.registers, memory := r.memory,
                 out := s.out ++ r.out, err := s.err ++ [Diag.prompt ip] ++ r.err })) := by
  have hit : iteration file s =
      run_step { s with paused := false, input := rest, err := s.err ++ [Diag.prompt ip] } := by
    rw [iteration_paused file s ip l rest hd hp hip hin hc, if_pos hcont]
  refine ⟨?_, hit, ?_⟩
  · unfold check_breakpoint
    simp [hd, hp]
  · intro r hr hcode
    rw [hit]
    unfold run_step
    simp only [hr, hcode, if_true]

set_option maxRecDepth 100000 in
/-- C12, witness: a paused session at IP = 0 with the breakpoint at 0, the
program `MOVI 7 r1` and the command `c`. -/
theorem continue_steps_before_breakpoint_witness :
    load (regsWith 0 5 4) IP = some 0 ∧ (['c'] : List Char) ≠ [] ∧
    is_prefix ['c'] "continue".toList = true ∧
    (check_breakpoint
        ⟨true, true, 0, regsWith 0 5 4, memWith [1, 7, 1], [⟨['c'], []⟩], [], []⟩ =
      some ⟨true, true, 0, regsWith 0 5 4, memWith [1, 7, 1], [⟨['c'], []⟩], [], []⟩ ∧
    iteration none ⟨true, true, 0, regsWith 0 5 4, memWith [1, 7, 1], [⟨['c'], []⟩], [], []⟩ =
      run_step ⟨true, false, 0, regsWith 0 5 4, memWith [1, 7, 1], [], [], [] ++ [Diag.prompt 0]⟩ ∧
    (∀ r, step (regsWith 0 5 4) (memWith [1, 7, 1]) = some r → r.code = 0 →
      iteration none
          ⟨true, true, 0, regsWith 0 5 4, memWith [1, 7, 1], [⟨['c'], []⟩], [], []⟩ =
        some (Loop.next ⟨true, false, 0, r.registers, r.memory, [], [] ++ r.out,
          [] ++ [Diag.prompt 0] ++ r.err⟩))) :=
  ⟨by decide, by decide, by decide,
    continue_steps_before_breakpoint none
      ⟨true, true, 0, regsWith 0 5 4, memWith [1, 7, 1], [⟨['c'], []⟩], [], []⟩ 0 ⟨['c'], []⟩ []
      rfl rfl (by decide) rfl (by decide) (by decide)⟩

/-! ### Command dispatch -/

theorem is_prefix_head (c : Char) (cs w : List Char) (h : is_prefix (c :: cs) w = true) :
    w.head?.map tolower = some (tolower c) := by
  cases w with
  | nil => simp [ is_prefix, strncaseeq] at h
  | cons b bs =>
    simp only [ is_prefix, List.length_cons, strncaseeq, Bool.and_eq_true, beq_iff_eq] at h
    simp [h.1]

theorem is_prefix_false_of_head (c : Char) (cs w : List Char)
    (h : w.head?.map tolower ≠ some (tolower c)) : is_prefix (c :: cs) w = false := by
  cases hb : is_prefix (c :: cs) w with
  | false => rfl
  | true => exact absurd ( is_prefix_head c cs w hb) h

/-- A command word that is a prefix of `break` reaches the `break` case of the
command chain. -/
theorem run_command_break (file : Option VmlFile) (s : Session) (cmd arg : List Char)
    (args : Int) (hc : cmd ≠ []) (hb : is_prefix cmd "break".toList = true) :
    run_command file s cmd arg args =
      match load s.registers IP with
      | none => none
      | some ip =>
        match (if args ≥ 2 then get_addr_arg arg s.registers else some (ip, [])) with
        | none => none
        | some (addr, e) =>
          if addr ≥ 0 then
            some (Loop.next { s with breakpoint := addr,
                                     err := s.err ++ e ++ [Diag.breakpointSet addr] })
          else some (Loop.next { s with err := s.err ++ e }) := by
  cases cmd with
  | nil => exact absurd rfl hc
  | cons c cs =>
    have hl : tolower c = 98 := by
      have := is_prefix_head c cs _ hb
      have h98 : "break".toList.head?.map tolower = some 98 := by decide
      rw [h98] at this
      exact (Option.some.inj this).symm
    have hne : ∀ w : List Char, ∀ k : Nat, w.head?.map tolower = some k → k ≠ 98 →
        is_prefix (c :: cs) w = false := by
      intro w k hw hk
      apply is_prefix_false_of_head
      rw [hw, hl]
      intro hcon
      exact hk (Option.some.inj hcon)
    have h1 := hne "continue".toList 99 (by decide) (by decide)
    have h2 := hne "help".toList 104 (by decide) (by decide)
    have h3 := hne "quit".toList 113 (by decide) (by decide)
    have h4 := hne "list".toList 108 (by decide) (by decide)
    have h5 := hne "print".toList 112 (by decide) (by decide)
    have h6 := hne "frame".toList 102 (by decide) (by decide)
    have h7 := hne "restart".toList 114 (by decide) (by decide)
    have hx : c :: cs ≠ ['x'] := by
      intro hcon
      have hcx : c = 'x' := by simpa using (List.cons.inj hcon).1
      rw [hcx] at hl
      revert hl
      decide
    unfold run_command
    simp only [h1, h2, h3, h4, h5, h6, h7, hb, Bool.false_eq_true, if_false, if_true, if_neg hx]

/-- C13: in a paused debug session, a command that is a prefix of `break`
leaves the registers and memory as they are and
(a) keeps the breakpoint when its argument fails address resolution
    (`get_addr_arg` yields -1, for a malformed token and for an address outside
    0..499);
(b) sets the breakpoint to `a` when the argument resolves to the address `a`;
(c) sets the breakpoint to the current IP when there is no argument and IP
    is not negative (so for every valid address). -/
theorem break_sets_or_keeps_breakpoint (file : Option VmlFile) (s : Session) (ip : Int)
    (l : Line) (rest : List Line) (hd : s.debug = true) (hp : s.paused = true)
    (hip : load s.registers IP = some ip) (hin : s.input = l :: rest) (hc : l.cmd ≠ [])
    (hb : is_prefix l.cmd "break".toList = true) :
    (∀ e, l.arg ≠ [] → get_addr_arg l.arg s.registers = some (-1, e) →
      iteration file s = some (Loop.next
        { s with input := rest, err := s.err ++ [Diag.prompt ip] ++ e })) ∧
    (∀ a e, l.arg ≠ [] → get_addr_arg l.arg s.registers = some (a, e) → 0 ≤ a →
      iteration file s = some (Loop.next
        { s with breakpoint := a, input := rest,
                 err := s.err ++ [Diag.prompt ip] ++ e ++ [Diag.breakpointSet a] })) ∧
    (l.arg = [] → 0 ≤ ip →
      iteration file s = some (Loop.next
        { s with breakpoint := ip, input := rest,
                 err := s.err ++ [Diag.prompt ip] ++ [] ++ [Diag.breakpointSet ip] })) := by
  obtain ⟨c, cs, hcmd⟩ : ∃ c cs, l.cmd = c :: cs := by
    cases h : l.cmd with
    | nil => exact absurd h hc
    | cons c cs => exact ⟨c, cs, rfl⟩
  have hl : tolower c = 98 := by
    rw [hcmd] at hb
    have := is_prefix_head c cs _ hb
    have h98 : "break".toList.head?.map tolower = some 98 := by decide
    rw [h98] at this
    exact (Option.some.inj this).symm
  have hcont : is_prefix l.cmd "continue".toList = false := by
    rw [hcmd]
    apply is_prefix_false_of_head
    rw [hl]
    decide
  have hstep : is_prefix l.cmd "step".toList = false := by
    rw [hcmd]
    apply is_prefix_false_of_head
    rw [hl]
    decide
  have hit := iteration_paused file s ip l rest hd hp hip hin hc
  rw [hcont, hstep] at hit
  simp only [Bool.false_eq_true, if_false] at hit
  rw [run_command_break file _ l.cmd l.arg _ hc hb] at hit
  simp only [hip] at hit
  refine ⟨?_, ?_, ?_⟩
  · intro e harg hres
    rw [hit]
    simp only [if_neg harg, hres]
    rfl
  · intro a e harg hres ha
    rw [hit]
    simp only [if_neg harg, hres]
    simp [ha]
  · intro harg hip0
    rw [hit]
    simp only [if_pos harg]
    simp [hip0]

set_option maxRecDepth 100000 in
/-- C13, witness: a paused session with the breakpoint at 2 and the command
line `b zz`. -/
theorem break_sets_or_keeps_breakpoint_witness :
    load (regsWith 0 5 4) IP = some 0 ∧ (['b'] : List Char) ≠ [] ∧
    is_prefix ['b'] "break".toList = true ∧
    get_addr_arg ['z', 'z'] (regsWith 0 5 4) = some (-1, [Diag.badAddress ['z', 'z']]) ∧
    ((∀ e, (['z', 'z'] : List Char) ≠ [] →
      get_addr_arg ['z', 'z'] (regsWith 0 5 4) = some (-1, e) →
      iteration none
          ⟨true, true, 2, regsWith 0 5 4, memWith [], [⟨['b'], ['z', 'z']⟩], [], []⟩ =
        some (Loop.next ⟨true, true, 2, regsWith 0 5 4, memWith [], [], [],
          [] ++ [Diag.prompt 0] ++ e⟩)) ∧
    (∀ a e, (['z', 'z'] : List Char) ≠ [] →
      get_addr_arg ['z', 'z'] (regsWith 0 5 4) = some (a, e) → 0 ≤ a →
      iteration none
          ⟨true, true, 2, regsWith 0 5 4, memWith [], [⟨['b'], ['z', 'z']⟩], [], []⟩ =
        some (Loop.next ⟨true, true, a, regsWith 0 5 4, memWith [], [], [],
          [] ++ [Diag.prompt 0] ++ e ++ [Diag.breakpointSet a]⟩)) ∧
    ((['z', 'z'] : List Char) = [] → (0 : Int) ≤ 0 →
      iteration none
          ⟨true, true, 2, regsWith 0 5 4, memWith [], [⟨['b'], ['z', 'z']⟩], [], []⟩ =
        some (Loop.next ⟨true, true, 0, regsWith 0 5 4, memWith [], [], [],
          [] ++ [Diag.prompt 0] ++ [] ++ [Diag.breakpointSet 0]⟩))) :=
  ⟨by decide, by decide, by decide, by decide,
    break_sets_or_keeps_breakpoint none
      ⟨true, true, 2, regsWith 0 5 4, memWith [], [⟨['b'], ['z', 'z']⟩], [], []⟩ 0
      ⟨['b'], ['z', 'z']⟩ [] rfl rfl (by decide) rfl (by decide) (by decide)⟩

/-- The command chain below `continue`, for a command that is neither `quit` nor
`restart`: whenever it returns, the loop goes on with the same registers,
memory and output, and nothing read from the input. -/
theorem run_command_frame (file : Option VmlFile) (s : Session) (cmd arg : List Char)
    (args : Int) (hq : is_prefix cmd "quit".toList = false)
    (hr : is_prefix cmd "restart".toList = false) (res : Loop)
    (h : run_command file s cmd arg args = some res) :
    ∃ s', res = Loop.next s' ∧ s'.registers = s.registers ∧ s'.memory = s.memory ∧
      s'.out = s.out ∧ s'.input = s.input ∧ s'.debug = s.debug ∧ s'.paused = s.paused := by
  have hq' : ¬ is_prefix cmd "quit".toList = true := by rw [hq]; decide
  have hr' : ¬ is_prefix cmd "restart".toList = true := by rw [hr]; decide
  unfold run_command at h
  by_cases h1 : is_prefix cmd "continue".toList = true
  · rw [if_pos h1] at h
    exact ⟨_, (Option.some.inj h).symm, rfl, rfl, rfl, rfl, rfl, rfl⟩
  rw [if_neg h1] at h
  by_cases h2 : is_prefix cmd "help".toList = true
  · rw [if_pos h2] at h
    exact ⟨_, (Option.some.inj h).symm, rfl, rfl, rfl, rfl, rfl, rfl⟩
  rw [if_neg h2, if_neg hq'] at h
  by_cases h3 : is_prefix cmd "list".toList = true
  · rw [if_pos h3] at h
    exact ⟨_, (Option.some.inj h).symm, rfl, rfl, rfl, rfl, rfl, rfl⟩
  rw [if_neg h3] at h
  by_cases h4 : is_prefix cmd "print".toList = true
  · rw [if_pos h4] at h
    by_cases ha : args < 2
    · rw [if_pos ha] at h
      exact ⟨_, (Option.some.inj h).symm, rfl, rfl, rfl, rfl, rfl, rfl⟩
    rw [if_neg ha] at h
    cases hg : get_reg_arg arg with
    | none => rw [hg] at h; exact Option.noConfusion h
    | some regnum =>
      rw [hg] at h
      simp only at h
      by_cases hn : regnum < 0
      · rw [if_pos hn] at h
        exact ⟨_, (Option.some.inj h).symm, rfl, rfl, rfl, rfl, rfl, rfl⟩
      rw [if_neg hn] at h
      cases hl : load s.registers regnum with
      | none => rw [hl] at h; exact Option.noConfusion h
      | some v =>
        rw [hl] at h
        exact ⟨_, (Option.some.inj h).symm, rfl, rfl, rfl, rfl, rfl, rfl⟩
  rw [if_neg h4] at h
  by_cases h5 : cmd = ['x']
  · rw [if_pos h5] at h
    by_cases ha : args < 2
    · rw [if_pos ha] at h
      exact ⟨_, (Option.some.inj h).symm, rfl, rfl, rfl, rfl, rfl, rfl⟩
    rw [if_neg ha] at h
    cases hg : get_addr_arg arg s.registers with
    | none => rw [hg] at h; exact Option.noConfusion h
    | some p =>
      obtain ⟨addr, e⟩ := p
      rw [hg] at h
      simp only at h
      by_cases hn : addr ≥ 0
      · rw [if_pos hn] at h
        cases hl : load s.memory addr with
        | none => rw [hl] at h; exact Option.noConfusion h
        | some v =>
          rw [hl] at h
          exact ⟨_, (Option.some.inj h).symm, rfl, rfl, rfl, rfl, rfl, rfl⟩
      rw [if_neg hn] at h
      exact ⟨_, (Option.some.inj h).symm, rfl, rfl, rfl, rfl, rfl, rfl⟩
  rw [if_neg h5] at h
  by_cases h6 : is_prefix cmd "frame".toList = true
  · rw [if_pos h6] at h
    exact ⟨_, (Option.some.inj h).symm, rfl, rfl, rfl, rfl, rfl, rfl⟩
  rw [if_neg h6, if_neg hr'] at h
  by_cases h7 : is_prefix cmd "break".toList = true
  · rw [if_pos h7] at h
    cases hl : load s.registers IP with
    | none => rw [hl] at h; exact Option.noConfusion h
    | some ip =>
      rw [hl] at h
      simp only at h
      cases hg : (if args ≥ 2 then get_addr_arg arg s.registers else some (ip, [])) with
      | none => rw [hg] at h; exact Option.noConfusion h
      | some p =>
        obtain ⟨addr, e⟩ := p
        rw [hg] at h
        simp only at h
        by_cases hn : addr ≥ 0
        · rw [if_pos hn] at h
          exact ⟨_, (Option.some.inj h).symm, rfl, rfl, rfl, rfl, rfl, rfl⟩
        rw [if_neg hn] at h
        exact ⟨_, (Option.some.inj h).symm, rfl, rfl, rfl, rfl, rfl, rfl⟩
  rw [if_neg h7] at h
  by_cases h8 : is_prefix cmd "delete".toList = true
  · rw [if_pos h8] at h
    by_cases hn : s.breakpoint < 0
    · rw [if_pos hn] at h
      exact ⟨_, (Option.some.inj h).symm, rfl, rfl, rfl, rfl, rfl, rfl⟩
    rw [if_neg hn] at h
    exact ⟨_, (Option.some.inj h).symm, rfl, rfl, rfl, rfl, rfl, rfl⟩
  rw [if_neg h8] at h
  exact ⟨_, (Option.some.inj h).symm, rfl, rfl, rfl, rfl, rfl, rfl⟩

theorem load_defined {a : List Int} {i : Int} (h0 : 0 ≤ i) (h1 : i < a.length) :
    ∃ x, load a i = some x := by
  unfold load
  rw [if_pos h0]
  cases h : a[i.toNat]? with
  | none =>
    have := List.getElem?_eq_none_iff.mp h
    omega
  | some x => exact ⟨x, rfl⟩

theorem get_addr_arg_range (arg : List Char) (regs : List Int) (a : Int) (e : List Diag)
    (h : get_addr_arg arg regs = some (a, e)) : a = -1 ∨ (0 ≤ a ∧ a < 500) := by
  unfold get_addr_arg at h
  cases arg with
  | nil =>
    left
    exact (congrArg Prod.fst (Option.some.inj h)).symm
  | cons c rest =>
    simp only at h
    cases hr : get_reg_arg (c :: rest) with
    | none => rw [hr] at h; exact Option.noConfusion h
    | some regnum =>
      rw [hr] at h
      simp only at h
      split_ifs at h with h1 h2
      · cases hl : load regs regnum with
        | none => rw [hl] at h; exact Option.noConfusion h
        | some x =>
          rw [hl] at h
          have := congrArg Prod.fst (Option.some.inj h)
          simp only at this
          rw [← this]
          exact checkAddr_range x
      · cases hl : atoi (c :: rest) with
        | none => rw [hl] at h; exact Option.noConfusion h
        | some x =>
          rw [hl] at h
          have := congrArg Prod.fst (Option.some.inj h)
          simp only at this
          rw [← this]
          exact checkAddr_range x
      · left
        exact (congrArg Prod.fst (Option.some.inj h)).symm

/-- The command chain below `continue`, for a command that is neither `quit` nor
`restart`, returns on a well-formed machine whenever the two resolvers are
defined on the argument. -/
theorem run_command_defined (file : Option VmlFile) (s : Session) (cmd arg : List Char)
    (args : Int) (hq : is_prefix cmd "quit".toList = false)
    (hr : is_prefix cmd "restart".toList = false)
    (hwf : WellFormed s.registers s.memory)
    (hreg : get_reg_arg arg ≠ none) (haddr : get_addr_arg arg s.registers ≠ none) :
    ∃ res, run_command file s cmd arg args = some res := by
  obtain ⟨hlr, hlm⟩ := hwf
  have hq' : ¬ is_prefix cmd "quit".toList = true := by rw [hq]; decide
  have hr' : ¬ is_prefix cmd "restart".toList = true := by rw [hr]; decide
  unfold run_command
  by_cases h1 : is_prefix cmd "continue".toList = true
  · rw [if_pos h1]; exact ⟨_, rfl⟩
  rw [if_neg h1]
  by_cases h2 : is_prefix cmd "help".toList = true
  · rw [if_pos h2]; exact ⟨_, rfl⟩
  rw [if_neg h2, if_neg hq']
  by_cases h3 : is_prefix cmd "list".toList = true
  · rw [if_pos h3]; exact ⟨_, rfl⟩
  rw [if_neg h3]
  by_cases h4 : is_prefix cmd "print".toList = true
  · rw [if_pos h4]
    by_cases ha : args < 2
    · rw [if_pos ha]; exact ⟨_, rfl⟩
    rw [if_neg ha]
    cases hg : get_reg_arg arg with
    | none => exact absurd hg hreg
    | some regnum =>
      simp only
      by_cases hn : regnum < 0
      · rw [if_pos hn]; exact ⟨_, rfl⟩
      rw [if_neg hn]
      have hrange := get_reg_arg_range arg regnum hg
      obtain ⟨v, hv⟩ := load_defined (a := s.registers) (i := regnum) (by omega)
        (by rw [hlr]; simp only [REGS]; omega)
      rw [hv]
      exact ⟨_, rfl⟩
  rw [if_neg h4]
  by_cases h5 : cmd = ['x']
  · rw [if_pos h5]
    by_cases ha : args < 2
    · rw [if_pos ha]; exact ⟨_, rfl⟩
    rw [if_neg ha]
    cases hg : get_addr_arg arg s.registers with
    | none => exact absurd hg haddr
    | some p =>
      obtain ⟨addr, e⟩ := p
      simp only
      by_cases hn : addr ≥ 0
      · rw [if_pos hn]
        have hrange := get_addr_arg_range arg s.registers addr e hg
        obtain ⟨v, hv⟩ := load_defined (a := s.memory) (i := addr) (by omega)
          (by rw [hlm]; simp only [MEMSIZE]; omega)
        rw [hv]
        exact ⟨_, rfl⟩
      rw [if_neg hn]
      exact ⟨_, rfl⟩
  rw [if_neg h5]
  by_cases h6 : is_prefix cmd "frame".toList = true
  · rw [if_pos h6]; exact ⟨_, rfl⟩
  rw [if_neg h6, if_neg hr']
  by_cases h7 : is_prefix cmd "break".toList = true
  · rw [if_pos h7]
    obtain ⟨ip, hip⟩ := load_defined (a := s.registers) (i := IP) (by decide)
      (by rw [hlr]; decide)
    rw [hip]
    simp only
    by_cases ha : args ≥ 2
    · rw [if_pos ha]
      cases hg : get_addr_arg arg s.registers with
      | none => exact absurd hg haddr
      | some p =>
        obtain ⟨addr, e⟩ := p
        simp only
        by_cases hn : addr ≥ 0
        · rw [if_pos hn]; exact ⟨_, rfl⟩
        · rw [if_neg hn]; exact ⟨_, rfl⟩
    · rw [if_neg ha]
      simp only
      by_cases hn : ip ≥ 0
      · rw [if_pos hn]; exact ⟨_, rfl⟩
      · rw [if_neg hn]; exact ⟨_, rfl⟩
  rw [if_neg h7]
  by_cases h8 : is_prefix cmd "delete".toList = true
  · rw [if_pos h8]
    by_cases hn : s.breakpoint < 0
    · rw [if_pos hn]; exact ⟨_, rfl⟩
    · rw [if_neg hn]; exact ⟨_, rfl⟩
  rw [if_neg h8]
  exact ⟨_, rfl⟩

/-- C15: in a paused debug session, an iteration whose command is not a prefix
of `step`, `continue`, `restart` or `quit` is the run of the command chain,
without a call of `step`: whenever it returns, the loop goes on with every
register and every memory cell (and the output) as before the iteration; and
it does return on a well-formed machine for every argument on which the two
resolvers are defined (a valid, an invalid or a missing argument). -/
theorem inspection_commands_keep_machine (file : Option VmlFile) (s : Session) (ip : Int)
    (l : Line) (rest : List Line) (hd : s.debug = true) (hp : s.paused = true)
    (hip : load s.registers IP = some ip) (hin : s.input = l :: rest) (hc : l.cmd ≠ [])
    (hstep : is_prefix l.cmd "step".toList = false)
    (hcont : is_prefix l.cmd "continue".toList = false)
    (hrestart : is_prefix l.cmd "restart".toList = false)
    (hquit : is_prefix l.cmd "quit".toList = false) :
    iteration file s =
      run_command file { s with input := rest, err := s.err ++ [Diag.prompt ip] }
        l.cmd l.arg (if l.arg = [] then 1 else 2) ∧
    (∀ res, iteration file s = some res →
      ∃ s', res = Loop.next s' ∧ s'.registers = s.registers ∧ s'.memory = s.memory ∧
        s'.out = s.out) ∧
    (WellFormed s.registers s.memory → get_reg_arg l.arg ≠ none →
      get_addr_arg l.arg s.registers ≠ none →
      ∃ s', iteration file s = some (Loop.next s') ∧ s'.registers = s.registers ∧
        s'.memory = s.memory ∧ s'.out = s.out) := by
  have hit := iteration_paused file s ip l rest hd hp hip hin hc
  rw [hcont, hstep] at hit
  simp only [Bool.false_eq_true, if_false] at hit
  have hframe : ∀ res, iteration file s = some res →
      ∃ s', res = Loop.next s' ∧ s'.registers = s.registers ∧ s'.memory = s.memory ∧
        s'.out = s.out := by
    intro res hres
    rw [hit] at hres
    obtain ⟨s', h1, h2, h3, h4, -⟩ := run_command_frame file _ l.cmd l.arg _ hquit hrestart res hres
    exact ⟨s', h1, h2, h3, h4⟩
  refine ⟨hit, hframe, ?_⟩
  intro hwf hreg haddr
  obtain ⟨res, hres⟩ := run_command_defined file
    { s with input := rest, err := s.err ++ [Diag.prompt ip] } l.cmd l.arg
    (if l.arg = [] then 1 else 2) hquit hrestart hwf hreg haddr
  rw [← hit] at hres
  obtain ⟨s', h1, h2, h3, h4⟩ := hframe res hres
  exact ⟨s', by rw [hres, h1], h2, h3, h4⟩

set_option maxRecDepth 100000 in
/-- C15, witness: a paused session and the command line `p r1`. -/
theorem inspection_commands_keep_machine_witness :
    load (regsWith 0 5 4) IP = some 0 ∧ (['p'] : List Char) ≠ [] ∧
    is_prefix ['p'] "step".toList = false ∧ is_prefix ['p'] "continue".toList = false ∧
    is_prefix ['p'] "restart".toList = false ∧ is_prefix ['p'] "quit".toList = false ∧
    (iteration none
        ⟨true, true, -1, regsWith 0 5 4, memWith [], [⟨['p'], ['r', '1']⟩], [], []⟩ =
      run_command none ⟨true, true, -1, regsWith 0 5 4, memWith [], [], [], [] ++ [Diag.prompt 0]⟩
        ['p'] ['r', '1'] (if (['r', '1'] : List Char) = [] then 1 else 2) ∧
    (∀ res, iteration none
        ⟨true, true, -1, regsWith 0 5 4, memWith [], [⟨['p'], ['r', '1']⟩], [], []⟩ = some res →
      ∃ s', res = Loop.next s' ∧ s'.registers = regsWith 0 5 4 ∧ s'.memory = memWith [] ∧
        s'.out = []) ∧
    (WellFormed (regsWith 0 5 4) (memWith []) → get_reg_arg ['r', '1'] ≠ none →
      get_addr_arg ['r', '1'] (regsWith 0 5 4) ≠ none →
      ∃ s', iteration none
          ⟨true, true, -1, regsWith 0 5 4, memWith [], [⟨['p'], ['r', '1']⟩], [], []⟩ =
        some (Loop.next s') ∧ s'.registers = regsWith 0 5 4 ∧
        s'.memory = memWith [] ∧ s'.out = [])) :=
  ⟨by decide, by decide, by decide, by decide, by decide, by decide,
    inspection_commands_keep_machine none
      ⟨true, true, -1, regsWith 0 5 4, memWith [], [⟨['p'], ['r', '1']⟩], [], []⟩ 0
      ⟨['p'], ['r', '1']⟩ [] rfl rfl (by decide) rfl (by decide) (by decide) (by decide)
      (by decide) (by decide)⟩

/-- With the breakpoint unset (-1), the breakpoint test changes nothing as long
as IP does not hold -1, in particular for every valid address. -/
theorem check_breakpoint_unset (s : Session) (ip : Int) (hbp : s.breakpoint = -1)
    (hip : load s.registers IP = some ip) (hne : ip ≠ -1) : check_breakpoint s = some s := by
  unfold check_breakpoint
  split_ifs with h
  · simp only [hip]
    rw [if_neg (by rw [hbp]; exact hne)]
  · rfl

set_option maxRecDepth 100000 in
/-- C14, at the failing input: the debugger runs `MOVI -1 r1; JMP r1` with the
commands `continue` and `help`, and no breakpoint is ever set. After three
iterations the session is paused with the breakpoint still unset (-1), and
`stderr` holds the notification of a breakpoint hit at -1 between the two
prompts. -/
theorem unset_breakpoint_hit_at_minus_one :
    (main true (some ⟨5, [1, -1, 1, 7, 1], false⟩)
        [⟨"continue".toList, []⟩, ⟨"help".toList, []⟩]
        (List.replicate 32 0) (List.replicate 500 0) 3).map
      (fun l => match l with
        | Loop.next s => some (s.paused, s.breakpoint, load s.registers IP, s.err)
        | Loop.exit _ _ => none)
      = some (some (true, -1, some (-1),
          [Diag.prompt 0, Diag.hitBreakpoint (-1), Diag.prompt (-1), Diag.helpText])) := by
  decide

/-! ## Arithmetic instructions -/

theorem wrap32_range (x : Int) : -2147483648 ≤ wrap32 x ∧ wrap32 x ≤ 2147483647 := by
  unfold wrap32
  omega

theorem wrap32_congr (x : Int) : (wrap32 x - x) % 4294967296 = 0 := by
  unfold wrap32
  omega

/-- The common end of the two-operand register instructions: `registers[rd] = v`
followed by the write of IP. -/
theorem store_then_advance (registers memory : List Int) (ip rd v : Int)
    (hlen : registers.length = REGS) (h0 : 0 ≤ rd) (h1 : rd < 32) :
    ∃ r, ((store registers rd v).bind fun regs => advance regs memory ip []) = some r ∧
      r.code = 0 ∧ r.memory = memory ∧ r.out = [] ∧
      (rd ≠ IP → load r.registers rd = some v) ∧
      (∀ j, j ≠ rd → j ≠ IP → load r.registers j = load registers j) ∧
      load r.registers IP = some ip := by
  have hl : rd < registers.length := by rw [hlen]; simp only [REGS]; omega
  have hs : store registers rd v = some (registers.set rd.toNat v) := store_some v h0 hl
  have hs2 : store (registers.set rd.toNat v) IP ip =
      some ((registers.set rd.toNat v).set IP.toNat ip) :=
    store_some _ (by decide) (by simp [hlen, REGS, IP])
  refine ⟨⟨0, (registers.set rd.toNat v).set IP.toNat ip, memory, [], []⟩,
    ?_, rfl, rfl, rfl, ?_, ?_, ?_⟩
  · rw [hs]
    simp only [Option.some_bind, advance, hs2, Option.bind_eq_bind, Option.pure_def]
  · intro hne
    show load ((registers.set rd.toNat v).set IP.toNat ip) rd = some v
    rw [load_set_ne _ (by decide) (Ne.symm hne)]
    exact load_set_same _ h0 hl
  · intro j hj hj0
    show load ((registers.set rd.toNat v).set IP.toNat ip) j = load registers j
    rw [load_set_ne _ (by decide) (Ne.symm hj0), load_set_ne _ h0 (Ne.symm hj)]
  · show load ((registers.set rd.toNat v).set IP.toNat ip) IP = some ip
    exact load_set_same _ (by decide) (by simp [hlen, REGS, IP])

/-- C16: when IP points at `ADD`, `SUB` or `MUL` (tags 3, 4, 5) with operands
`rs`, `rd` naming registers, `rd` not IP (and `rs` possibly equal to `rd`),
`step` returns success; register `rd` then holds the sum, difference or
product of the values `rd` and `rs` held before the step, reduced modulo 2^32
into the signed 32-bit range; no register other than `rd` and IP changes, IP
is advanced by 3 and the memory is unchanged. -/
theorem arith_wraps (registers memory : List Int) (ip op rs rd a b : Int)
    (hlen : registers.length = REGS)
    (hip : load registers IP = some ip) (hop : load memory ip = some op)
    (hop3 : op = 3 ∨ op = 4 ∨ op = 5)
    (hrs : load memory (ip + 1) = some rs) (hrd : load memory (ip + 2) = some rd)
    (hne : rd ≠ IP) (ha : load registers rd = some a) (hb : load registers rs = some b) :
    ∃ r v, step registers memory = some r ∧ r.code = 0 ∧ r.memory = memory ∧
      v = wrap32 (if op = 3 then a + b else if op = 4 then a - b else a * b) ∧
      load r.registers rd = some v ∧
      -2147483648 ≤ v ∧ v ≤ 2147483647 ∧
      (v - (if op = 3 then a + b else if op = 4 then a - b else a * b)) % 4294967296 = 0 ∧
      (∀ j, j ≠ rd → j ≠ IP → load r.registers j = load registers j) ∧
      load r.registers IP = some (ip + 3) := by
  have hrd' : load memory (ip + 1 + 1) = some rd := by rw [← hrd]; congr 1; ring
  have h0 := (load_lt ha).1
  have h1 : rd < 32 := by have := (load_lt ha).2; rw [hlen] at this; simpa [REGS] using this
  have key : ∀ v : Int,
      (step registers memory = (store registers rd v).bind fun regs =>
        advance regs memory (ip + 1 + 1 + 1) []) →
      ∃ r, step registers memory = some r ∧ r.code = 0 ∧ r.memory = memory ∧
        load r.registers rd = some v ∧
        (∀ j, j ≠ rd → j ≠ IP → load r.registers j = load registers j) ∧
        load r.registers IP = some (ip + 3) := by
    intro v hv
    obtain ⟨r, hr, hc, hm, -, hd, hj, hi⟩ :=
      store_then_advance registers memory (ip + 1 + 1 + 1) rd v hlen h0 h1
    refine ⟨r, by rw [hv, hr], hc, hm, hd hne, hj, ?_⟩
    rw [hi]
    congr 1
    ring
  rcases hop3 with rfl | rfl | rfl
  · obtain ⟨r, hr, hc, hm, hd, hj, hi⟩ := key (wrap32 (a + b)) (by
      rw [step_add hip hop]
      simp only [hrs, hrd', ha, hb, Option.bind_eq_bind, Option.some_bind])
    exact ⟨r, _, hr, hc, hm, rfl, by simpa using hd, (wrap32_range _).1, (wrap32_range _).2,
      wrap32_congr _, hj, hi⟩
  · obtain ⟨r, hr, hc, hm, hd, hj, hi⟩ := key (wrap32 (a - b)) (by
      rw [step_sub hip hop]
      simp only [hrs, hrd', ha, hb, Option.bind_eq_bind, Option.some_bind])
    exact ⟨r, _, hr, hc, hm, rfl, by simpa using hd, (wrap32_range _).1, (wrap32_range _).2,
      wrap32_congr _, hj, hi⟩
  · obtain ⟨r, hr, hc, hm, hd, hj, hi⟩ := key (wrap32 (a * b)) (by
      rw [step_mul hip hop]
      simp only [hrs, hrd', ha, hb, Option.bind_eq_bind, Option.some_bind])
    exact ⟨r, _, hr, hc, hm, rfl, by simpa using hd, (wrap32_range _).1, (wrap32_range _).2,
      wrap32_congr _, hj, hi⟩

set_option maxRecDepth 100000 in
/-- C16, witness: `ADD r1 r1` with the largest `int` in register 1; the sum
wraps to -2. -/
theorem arith_wraps_witness :
    (regsWith 0 2147483647 4).length = REGS ∧
    load (regsWith 0 2147483647 4) IP = some 0 ∧ load (memWith [3, 1, 1]) 0 = some 3 ∧
    ((3 : Int) = 3 ∨ (3 : Int) = 4 ∨ (3 : Int) = 5) ∧
    load (memWith [3, 1, 1]) (0 + 1) = some 1 ∧ load (memWith [3, 1, 1]) (0 + 2) = some 1 ∧
    (1 : Int) ≠ IP ∧ load (regsWith 0 2147483647 4) 1 = some 2147483647 ∧
    wrap32 (2147483647 + 2147483647) = -2 ∧
    ∃ r v, step (regsWith 0 2147483647 4) (memWith [3, 1, 1]) = some r ∧ r.code = 0 ∧
      r.memory = memWith [3, 1, 1] ∧
      v = wrap32 (if (3 : Int) = 3 then 2147483647 + 2147483647
        else if (3 : Int) = 4 then 2147483647 - 2147483647 else 2147483647 * 2147483647) ∧
      load r.registers 1 = some v ∧
      -2147483648 ≤ v ∧ v ≤ 2147483647 ∧
      (v - (if (3 : Int) = 3 then 2147483647 + 2147483647
        else if (3 : Int) = 4 then 2147483647 - 2147483647
        else 2147483647 * 2147483647)) % 4294967296 = 0 ∧
      (∀ j, j ≠ 1 → j ≠ IP → load r.registers j = load (regsWith 0 2147483647 4) j) ∧
      load r.registers IP = some (0 + 3) :=
  ⟨by decide, by decide, by decide, by decide, by decide, by decide, by decide, by decide,
    by decide,
    arith_wraps (regsWith 0 2147483647 4) (memWith [3, 1, 1]) 0 3 1 1 2147483647 2147483647
      (by decide) (by decide) (by decide) (by decide) (by decide) (by decide) (by decide)
      (by decide) (by decide)⟩

theorem tdiv_in_range (a b : Int) (hb0 : b ≠ 0)
    (ha : -2147483648 ≤ a ∧ a ≤ 2147483647)
    (hne : ¬ (a = -2147483648 ∧ b = -1)) :
    -2147483648 ≤ Int.tdiv a b ∧ Int.tdiv a b ≤ 2147483647 := by
  have hn : (Int.tdiv a b).natAbs = a.natAbs / b.natAbs := Int.natAbs_tdiv a b
  have hbpos : 1 ≤ b.natAbs := by omega
  have hle : a.natAbs / b.natAbs ≤ a.natAbs := Nat.div_le_self _ _
  have hmul : a.natAbs / b.natAbs * b.natAbs ≤ a.natAbs := Nat.div_mul_le_self _ _
  have habs : a.natAbs ≤ 2147483648 := by omega
  constructor
  · omega
  · by_contra hcon
    have hq : Int.tdiv a b = 2147483648 := by omega
    have hq' : a.natAbs / b.natAbs = 2147483648 := by rw [← hn, hq]; rfl
    rw [hq'] at hmul
    have hb1 : b.natAbs = 1 := by omega
    have ha1 : a = -2147483648 := by omega
    have hb2 : b = 1 ∨ b = -1 := by omega
    rcases hb2 with rfl | rfl
    · rw [Int.tdiv_one] at hq
      omega
    · exact hne ⟨ha1, rfl⟩

theorem tdiv_sign (a b : Int) : 0 ≤ Int.tdiv a b * a * b := by
  rcases le_total 0 a with ha | ha <;> rcases le_total 0 b with hb | hb
  · exact mul_nonneg (mul_nonneg (Int.tdiv_nonneg ha hb) ha) hb
  · have hq : 0 ≤ Int.tdiv a (-b) := Int.tdiv_nonneg ha (by omega)
    rw [Int.tdiv_neg] at hq
    have h1 : 0 ≤ (-(Int.tdiv a b)) * a := mul_nonneg hq ha
    have h2 := mul_nonneg h1 (show 0 ≤ -b by omega)
    linarith [h2, show -Int.tdiv a b * a * -b = Int.tdiv a b * a * b by ring]
  · have hq : 0 ≤ Int.tdiv (-a) b := Int.tdiv_nonneg (by omega) hb
    rw [Int.neg_tdiv] at hq
    have h1 : 0 ≤ (-(Int.tdiv a b)) * (-a) := mul_nonneg hq (by omega)
    have h2 := mul_nonneg h1 hb
    linarith [h2, show -Int.tdiv a b * -a * b = Int.tdiv a b * a * b by ring]
  · have hq : 0 ≤ Int.tdiv (-a) (-b) := Int.tdiv_nonneg (by omega) (by omega)
    rw [Int.neg_tdiv_neg] at hq
    have h1 : 0 ≤ Int.tdiv a b * (-a) := mul_nonneg hq (by omega)
    have h2 := mul_nonneg h1 (show 0 ≤ -b by omega)
    linarith [h2, show Int.tdiv a b * -a * -b = Int.tdiv a b * a * b by ring]

/-- C17 (as amended): when IP points at `IDIV rs rd` with `rd` not IP and
register `rs` holds a non-zero value, then, except for the minimum integer
divided by -1, `step` returns success and register `rd` holds the quotient of
the old `rd` by `rs` truncated toward zero (its magnitude is the floor of the
quotient of the magnitudes, its sign that of the product; -7 divided by 2
gives -3), which fits 32 bits; no other register than `rd` and IP changes and
IP is advanced by 3. For the minimum integer divided by -1 the quotient does
not fit an `int`: the division has no defined behaviour and `step` returns no
outcome. -/
theorem idiv_truncates (registers memory : List Int) (ip rs rd a b : Int)
    (hlen : registers.length = REGS)
    (hip : load registers IP = some ip) (hop : load memory ip = some 6)
    (hrs : load memory (ip + 1) = some rs) (hrd : load memory (ip + 2) = some rd)
    (hne : rd ≠ IP) (ha : load registers rd = some a) (hb : load registers rs = some b)
    (hb0 : b ≠ 0) (hra : -2147483648 ≤ a ∧ a ≤ 2147483647) :
    (¬ (a = -2147483648 ∧ b = -1) →
      ∃ r, step registers memory = some r ∧ r.code = 0 ∧ r.memory = memory ∧
        load r.registers rd = some (Int.tdiv a b) ∧
        -2147483648 ≤ Int.tdiv a b ∧ Int.tdiv a b ≤ 2147483647 ∧
        (∀ j, j ≠ rd → j ≠ IP → load r.registers j = load registers j) ∧
        load r.registers IP = some (ip + 3)) ∧
    (a = -2147483648 → b = -1 → step registers memory = none) ∧
    (Int.tdiv a b).natAbs = a.natAbs / b.natAbs ∧
    0 ≤ Int.tdiv a b * a * b ∧
    Int.tdiv (-7) 2 = -3 := by
  have hrd' : load memory (ip + 1 + 1) = some rd := by rw [← hrd]; congr 1; ring
  have h0 := (load_lt ha).1
  have h1 : rd < 32 := by have := (load_lt ha).2; rw [hlen] at this; simpa [REGS] using this
  refine ⟨?_, ?_, Int.natAbs_tdiv a b, tdiv_sign a b, by decide⟩
  · intro hno
    have hq := tdiv_in_range a b hb0 hra hno
    obtain ⟨r, hr, hc, hm, -, hd, hj, hi⟩ :=
      store_then_advance registers memory (ip + 1 + 1 + 1) rd (Int.tdiv a b) hlen h0 h1
    have hcond : ¬ (b = 0 ∨ Int.tdiv a b < -2147483648 ∨ 2147483647 < Int.tdiv a b) := by
      omega
    have hstep : step registers memory = some r := by
      rw [step_idiv hip hop]
      simp only [hrs, hrd', ha, hb, Option.bind_eq_bind, Option.some_bind, if_neg hcond]
      exact hr
    refine ⟨r, hstep, hc, hm, hd hne, hq.1, hq.2, hj, ?_⟩
    rw [hi]
    congr 1
    ring
  · rintro rfl rfl
    rw [step_idiv hip hop]
    simp only [hrs, hrd', ha, hb, Option.bind_eq_bind, Option.some_bind]
    rw [if_pos (by decide)]

set_option maxRecDepth 100000 in
/-- C17, witness: `IDIV r31 r1` with -7 in register 1 and 2 in register 31. -/
theorem idiv_truncates_witness :
    (regsWith 0 (-7) 2).length = REGS ∧
    load (regsWith 0 (-7) 2) IP = some 0 ∧ load (memWith [6, 31, 1]) 0 = some 6 ∧
    load (memWith [6, 31, 1]) (0 + 1) = some 31 ∧ load (memWith [6, 31, 1]) (0 + 2) = some 1 ∧
    (1 : Int) ≠ IP ∧ load (regsWith 0 (-7) 2) 1 = some (-7) ∧
    load (regsWith 0 (-7) 2) 31 = some 2 ∧ (2 : Int) ≠ 0 ∧
    ((-2147483648 : Int) ≤ -7 ∧ (-7 : Int) ≤ 2147483647) ∧
    ((¬ ((-7 : Int) = -2147483648 ∧ (2 : Int) = -1) →
      ∃ r, step (regsWith 0 (-7) 2) (memWith [6, 31, 1]) = some r ∧ r.code = 0 ∧
        r.memory = memWith [6, 31, 1] ∧
        load r.registers 1 = some (Int.tdiv (-7) 2) ∧
        -2147483648 ≤ Int.tdiv (-7) 2 ∧ Int.tdiv (-7) 2 ≤ 2147483647 ∧
        (∀ j, j ≠ 1 → j ≠ IP → load r.registers j = load (regsWith 0 (-7) 2) j) ∧
        load r.registers IP = some (0 + 3)) ∧
    ((-7 : Int) = -2147483648 → (2 : Int) = -1 →
      step (regsWith 0 (-7) 2) (memWith [6, 31, 1]) = none) ∧
    (Int.tdiv (-7) 2).natAbs = (-7 : Int).natAbs / (2 : Int).natAbs ∧
    0 ≤ Int.tdiv (-7) 2 * (-7) * 2 ∧
    Int.tdiv (-7) 2 = -3) :=
  ⟨by decide, by decide, by decide, by decide, by decide, by decide, by decide, by decide,
    by decide, by decide,
    idiv_truncates (regsWith 0 (-7) 2) (memWith [6, 31, 1]) 0 31 1 (-7) 2
      (by decide) (by decide) (by decide) (by decide) (by decide) (by decide) (by decide)
      (by decide) (by decide) (by decide)⟩

set_option maxRecDepth 100000 in
/-- C17, counterexample: `IDIV r31 r1` at address 0 of a well-formed machine
with the minimum integer in register 1 and -1 in register 31: `step` does not
leave the wrapped quotient in register 1, it returns nothing. -/
theorem idiv_min_by_minus_one_counterexample :
    WellFormed (regsWith 0 (-2147483648) (-1)) (memWith [6, 31, 1]) ∧
    load (regsWith 0 (-2147483648) (-1)) IP = some 0 ∧
    (memWith [6, 31, 1]).take 3 = [6, 31, 1] ∧
    load (regsWith 0 (-2147483648) (-1)) 1 = some (-2147483648) ∧
    load (regsWith 0 (-2147483648) (-1)) 31 = some (-1) ∧
    step (regsWith 0 (-2147483648) (-1)) (memWith [6, 31, 1]) = none := by
  decide

/-! ## Calls, returns and the instruction pointer -/

theorem advance_eq (registers memory : List Int) (ip : Int) (out : List Int)
    (hlen : registers.length = REGS) :
    advance registers memory ip out = some ⟨0, registers.set IP.toNat ip, memory, out, []⟩ := by
  unfold advance
  rw [store_some ip (by decide) (by rw [hlen]; decide)]
  rfl

/-- C18 (as amended): when IP = a points at `JAL ra` with `ra` a register
index, `step` returns success, RP holds a + 2 (the address just past the
operand) and no register other than RP and IP changes. IP holds the value
register `ra` held before the instruction for every `ra` other than RP; for
`ra` = RP the return address is written first and IP holds a + 2. A `RET`
executed on the resulting state sets IP to the value in RP, a + 2. -/
theorem jal_links_then_jumps (registers memory : List Int) (ip ra v : Int)
    (hlen : registers.length = REGS)
    (hip : load registers IP = some ip) (hop : load memory ip = some 13)
    (hra : load memory (ip + 1) = some ra) (hv : load registers ra = some v) :
    ∃ r, step registers memory = some r ∧ r.code = 0 ∧ r.memory = memory ∧
      load r.registers RP = some (ip + 2) ∧
      (ra ≠ RP → load r.registers IP = some v) ∧
      (ra = RP → load r.registers IP = some (ip + 2)) ∧
      (∀ j, j ≠ RP → j ≠ IP → load r.registers j = load registers j) ∧
      (∀ t, load r.registers IP = some t → load r.memory t = some 14 →
        ∃ r2, step r.registers r.memory = some r2 ∧ r2.code = 0 ∧
          load r2.registers IP = some (ip + 2) ∧ load r2.registers RP = some (ip + 2)) := by
  have e1 : store registers RP (ip + 1 + 1) = some (registers.set RP.toNat (ip + 1 + 1)) :=
    store_some _ (by decide) (by simp [hlen, REGS, RP])
  have hl1 : (registers.set RP.toNat (ip + 1 + 1)).length = REGS := by simp [hlen]
  have hrp1 : load (registers.set RP.toNat (ip + 1 + 1)) RP = some (ip + 1 + 1) :=
    load_set_same _ (by decide) (by simp [hlen, REGS, RP])
  -- the value read from `registers[ra]` after the write of RP
  obtain ⟨t, ht, ht1, ht2⟩ : ∃ t, load (registers.set RP.toNat (ip + 1 + 1)) ra = some t ∧
      (ra ≠ RP → t = v) ∧ (ra = RP → t = ip + 2) := by
    by_cases h : ra = RP
    · refine ⟨ip + 1 + 1, by rw [h]; exact hrp1, fun h' => absurd h h', fun _ => by ring⟩
    · refine ⟨v, ?_, fun _ => rfl, fun h' => absurd h' h⟩
      rw [load_set_ne _ (by decide) (Ne.symm h)]
      exact hv
  have hstep : step registers memory =
      some ⟨0, (registers.set RP.toNat (ip + 1 + 1)).set IP.toNat t, memory, [], []⟩ := by
    rw [step_jal hip hop]
    simp only [hra, e1, ht, Option.bind_eq_bind, Option.some_bind]
    exact advance_eq _ _ _ _ hl1
  have hl2 : ((registers.set RP.toNat (ip + 1 + 1)).set IP.toNat t).length = REGS := by
    simp [hlen]
  have hrp2 : load ((registers.set RP.toNat (ip + 1 + 1)).set IP.toNat t) RP = some (ip + 2) := by
    rw [load_set_ne _ (by decide) (by decide), hrp1]
    congr 1
    ring
  have hip2 : load ((registers.set RP.toNat (ip + 1 + 1)).set IP.toNat t) IP = some t :=
    load_set_same _ (by decide) (by rw [hl1]; decide)
  refine ⟨_, hstep, rfl, rfl, hrp2, ?_, ?_, ?_, ?_⟩
  · intro h
    show load ((registers.set RP.toNat (ip + 1 + 1)).set IP.toNat t) IP = some v
    rw [hip2, ht1 h]
  · intro h
    show load ((registers.set RP.toNat (ip + 1 + 1)).set IP.toNat t) IP = some (ip + 2)
    rw [hip2, ht2 h]
  · intro j hj hj0
    show load ((registers.set RP.toNat (ip + 1 + 1)).set IP.toNat t) j = load registers j
    rw [load_set_ne _ (by decide) (Ne.symm hj0), load_set_ne _ (by decide) (Ne.symm hj)]
  · intro t' ht' h14
    have ht'' : load ((registers.set RP.toNat (ip + 1 + 1)).set IP.toNat t) IP = some t' := ht'
    have h14' : load memory t' = some 14 := h14
    have hret : step ((registers.set RP.toNat (ip + 1 + 1)).set IP.toNat t) memory =
        some ⟨0, ((registers.set RP.toNat (ip + 1 + 1)).set IP.toNat t).set IP.toNat (ip + 2),
          memory, [], []⟩ := by
      rw [step_ret ht'' h14']
      simp only [hrp2, Option.bind_eq_bind, Option.some_bind]
      exact advance_eq _ _ _ _ hl2
    refine ⟨_, hret, rfl, ?_, ?_⟩
    · exact load_set_same _ (by decide) (by rw [hl2]; decide)
    · show load (((registers.set RP.toNat (ip + 1 + 1)).set IP.toNat t).set IP.toNat (ip + 2)) RP
        = some (ip + 2)
      rw [load_set_ne _ (by decide) (by decide), hrp2]

set_option maxRecDepth 100000 in
/-- C18, witness: `JAL r1` at address 0 with 3 in register 1, followed by a
`RET` at address 3. -/
theorem jal_links_then_jumps_witness :
    (regsWith 0 3 4).length = REGS ∧
    load (regsWith 0 3 4) IP = some 0 ∧ load (memWith [13, 1, 0, 14]) 0 = some 13 ∧
    load (memWith [13, 1, 0, 14]) (0 + 1) = some 1 ∧ load (regsWith 0 3 4) 1 = some 3 ∧
    ∃ r, step (regsWith 0 3 4) (memWith [13, 1, 0, 14]) = some r ∧ r.code = 0 ∧
      r.memory = memWith [13, 1, 0, 14] ∧
      load r.registers RP = some (0 + 2) ∧
      ((1 : Int) ≠ RP → load r.registers IP = some 3) ∧
      ((1 : Int) = RP → load r.registers IP = some (0 + 2)) ∧
      (∀ j, j ≠ RP → j ≠ IP → load r.registers j = load (regsWith 0 3 4) j) ∧
      (∀ t, load r.registers IP = some t → load r.memory t = some 14 →
        ∃ r2, step r.registers r.memory = some r2 ∧ r2.code = 0 ∧
          load r2.registers IP = some (0 + 2) ∧ load r2.registers RP = some (0 + 2)) :=
  ⟨by decide, by decide, by decide, by decide, by decide,
    jal_links_then_jumps (regsWith 0 3 4) (memWith [13, 1, 0, 14]) 0 1 3
      (by decide) (by decide) (by decide) (by decide) (by decide)⟩

set_option maxRecDepth 100000 in
/-- C18, counterexample: `JAL r29` at address 0 of a well-formed machine with
100 in RP (register 29): `step` returns success and IP then holds 2, the
return address just written to RP, not the 100 that RP held before. -/
theorem jal_through_rp_counterexample :
    WellFormed ((regsWith 0 5 4).set 29 100) (memWith [13, 29]) ∧
    load ((regsWith 0 5 4).set 29 100) IP = some 0 ∧
    load ((regsWith 0 5 4).set 29 100) RP = some 100 ∧
    (memWith [13, 29]).take 2 = [13, 29] ∧
    (step ((regsWith 0 5 4).set 29 100) (memWith [13, 29])).map
      (fun r => (r.code, load r.registers IP, load r.registers RP))
      = some (0, some 2, some 2) := by
  decide

/-! ### The instruction pointer after a step -/

theorem ipAfter_none (v : Int) : IPAfter v none := by
  intro r h
  exact Option.noConfusion h

theorem ipAfter_advance (registers memory : List Int) (ip : Int) (out : List Int) :
    IPAfter ip (advance registers memory ip out) := by
  intro r h
  unfold advance at h
  cases hs : store registers IP ip with
  | none => rw [hs] at h; exact Option.noConfusion h
  | some regs =>
    rw [hs] at h
    have hr : r = ⟨0, regs, memory, out, []⟩ := (Option.some.inj h).symm
    unfold store at hs
    split_ifs at hs with hc
    have hregs : regs = registers.set IP.toNat ip := (Option.some.inj hs).symm
    rw [hr, hregs]
    exact load_set_same _ hc.1 (by omega)

theorem ipAfter_bind {α : Type} (v : Int) (x : Option α) (f : α → Option StepResult)
    (h : ∀ a, IPAfter v (f a)) : IPAfter v (x.bind f) := by
  intro r hr
  cases x with
  | none => exact Option.noConfusion hr
  | some a => exact h a r hr

theorem ipAfter_ite (v : Int) (c : Prop) [Decidable c] (a b : Option StepResult)
    (ha : IPAfter v a) (hb : IPAfter v b) : IPAfter v (if c then a else b) := by
  split_ifs
  · exact ha
  · exact hb

/-- C19: whenever `step` returns on an instruction that is not a jump, call or
return (tags 1-6, 9, 11, 12, 15-18, and `JNZ` when the tested register holds
0), so in particular when it succeeds, IP afterwards equals IP before plus one
plus the number of operand words of the opcode, whatever the operand registers
are (IP itself included). -/
theorem ip_advances_past_operands (registers memory : List Int) (ip op : Int)
    (r : StepResult)
    (hip : load registers IP = some ip) (hop : load memory ip = some op)
    (hstep : step registers memory = some r)
    (hkind : op ∈ [1, 2, 3, 4, 5, 6, 9, 11, 12, 15, 16, 17, 18] ∨
      (op = 8 ∧ ∃ rs, load memory (ip + 1) = some rs ∧ load registers rs = some 0)) :
    load r.registers IP = some (ip + 1 + operandWords op) := by
  have h2 : ip + 1 + 2 = ip + 1 + 1 + 1 := by ring
  have key : IPAfter (ip + 1 + operandWords op) (step registers memory) := by
    rcases hkind with hmem | ⟨rfl, rs, hrs, hz⟩
    · simp only [List.mem_cons, List.mem_singleton, List.not_mem_nil, or_false] at hmem
      rcases hmem with rfl | rfl | rfl | rfl | rfl | rfl | rfl | rfl | rfl | rfl | rfl | rfl | rfl
      all_goals
        first
        | rw [step_movi hip hop] | rw [step_mov hip hop] | rw [step_add hip hop]
        | rw [step_sub hip hop] | rw [step_mul hip hop] | rw [step_idiv hip hop]
        | rw [step_out hip hop] | rw [step_ld hip hop] | rw [step_st hip hop]
        | rw [step_push hip hop] | rw [step_pop hip hop] | rw [step_ldlo hip hop]
        | rw [step_stlo hip hop]
      all_goals
        simp only [Option.bind_eq_bind, Option.pure_def]
        first
        | rw [show operandWords 1 = 2 from by decide, h2]
        | rw [show operandWords 2 = 2 from by decide, h2]
        | rw [show operandWords 3 = 2 from by decide, h2]
        | rw [show operandWords 4 = 2 from by decide, h2]
        | rw [show operandWords 5 = 2 from by decide, h2]
        | rw [show operandWords 6 = 2 from by decide, h2]
        | rw [show operandWords 9 = 1 from by decide]
        | rw [show operandWords 11 = 2 from by decide, h2]
        | rw [show operandWords 12 = 2 from by decide, h2]
        | rw [show operandWords 15 = 1 from by decide]
        | rw [show operandWords 16 = 1 from by decide]
        | rw [show operandWords 17 = 2 from by decide, h2]
        | rw [show operandWords 18 = 2 from by decide, h2]
        repeat
          first
          | exact ipAfter_none _
          | exact ipAfter_advance _ _ _ _
          | (apply ipAfter_bind; intro _)
          | apply ipAfter_ite
    · rw [step_jnz hip hop, show operandWords 8 = 2 from by decide, h2]
      simp only [hrs, hz, Option.bind_eq_bind, Option.some_bind, ne_eq, not_true_eq_false,
        if_false]
      apply ipAfter_bind
      intro _
      exact ipAfter_advance _ _ _ _
  exact key r hstep

set_option maxRecDepth 100000 in
/-- C19, witness: `MOVI 7 r0`, whose destination is IP itself, leaves 3 in IP. -/
theorem ip_advances_past_operands_witness :
    load (regsWith 0 5 4) IP = some 0 ∧ load (memWith [1, 7, 0]) 0 = some 1 ∧
    step (regsWith 0 5 4) (memWith [1, 7, 0]) =
      some ⟨0, regsWith 3 5 4, memWith [1, 7, 0], [], []⟩ ∧
    ((1 : Int) ∈ [1, 2, 3, 4, 5, 6, 9, 11, 12, 15, 16, 17, 18] ∨
      ((1 : Int) = 8 ∧ ∃ rs, load (memWith [1, 7, 0]) (0 + 1) = some rs ∧
        load (regsWith 0 5 4) rs = some 0)) ∧
    load (regsWith 3 5 4) IP = some (0 + 1 + operandWords 1) :=
  ⟨by decide, by decide, by decide, Or.inl (by decide),
    ip_advances_past_operands (regsWith 0 5 4) (memWith [1, 7, 0]) 0 1
      ⟨0, regsWith 3 5 4, memWith [1, 7, 0], [], []⟩ (by decide) (by decide) (by decide)
      (Or.inl (by decide))⟩

/-! ### Unambiguous dispatch -/

/-- C20: every non-empty command token is a case-insensitive prefix
(`is_prefix`) of at most one of the ten words that the main loop matches by
prefix, and the token `x` is a prefix of none of them, so at most one test of
the chain of the main loop can succeed whatever their order; for example `br`
is a prefix of `break` and of no other word. -/
theorem dispatch_unambiguous :
    (∀ cmd : List Char, cmd ≠ [] → ∀ w1 ∈ commandWords, ∀ w2 ∈ commandWords,
      is_prefix cmd w1 = true → is_prefix cmd w2 = true → w1 = w2) ∧
    (∀ w ∈ commandWords, is_prefix ['x'] w = false) ∧
    is_prefix ['b', 'r'] "break".toList = true ∧
    (∀ w ∈ commandWords, is_prefix ['b', 'r'] w = true → w = "break".toList) := by
  have hinj : ∀ w1 ∈ commandWords, ∀ w2 ∈ commandWords,
      w1.head?.map tolower = w2.head?.map tolower → w1 = w2 := by decide
  have huniq : ∀ cmd : List Char, cmd ≠ [] → ∀ w1 ∈ commandWords, ∀ w2 ∈ commandWords,
      is_prefix cmd w1 = true → is_prefix cmd w2 = true → w1 = w2 := by
    intro cmd hc w1 hw1 w2 hw2 h1 h2
    cases cmd with
    | nil => exact absurd rfl hc
    | cons c cs =>
      apply hinj w1 hw1 w2 hw2
      rw [ is_prefix_head c cs w1 h1, is_prefix_head c cs w2 h2]
  refine ⟨huniq, by decide, by decide, ?_⟩
  intro w hw h
  exact huniq ['b', 'r'] (by decide) w hw "break".toList (by decide) h (by decide)

end VM
